import Mathlib

/-!
Verification development for the kfix scan/watch/auto-fix pipeline.

Python strings are modelled as `List Char` (`PyStr`); Python functions from
`kfix/cli.py` and `kfix/kubectl.py` are translated definition-by-definition.
Uncaught Python exceptions (AttributeError, TypeError, NameError, ...) are
modelled with `Except PyErr`; caught exceptions follow the source's
`try/except` structure.
-/

/-- Python strings, modelled as lists of characters. -/
abbrev PyStr := List Char

/-- Convert a Lean string literal to the `PyStr` model. -/
def pys (s : String) : PyStr := s.data

/-- Whitespace for `shlex`: `shlex.whitespace == " \t\r\n"`. -/
def isShWs (c : Char) : Bool := c = ' ' || c = '\t' || c = '\r' || c = '\n'

/-- Whitespace as recognised by Python's `str.strip()` and by `re`'s `\s`
on str patterns (CPython's `Py_UNICODE_ISSPACE`, identical for both): the
ASCII whitespace characters U+0009-U+000D and U+0020, the information
separators U+001C-U+001F, next line U+0085, and the Unicode space
characters U+00A0, U+1680, U+2000-U+200A, U+2028, U+2029, U+202F, U+205F
and U+3000. -/
def isPyWs (c : Char) : Bool :=
  c = ' ' || c = '\t' || c = '\n' || c = '\r' || c = '\x0b' || c = '\x0c' ||
  (0x1c ≤ c.toNat && c.toNat ≤ 0x1f) || c.toNat = 0x85 || c.toNat = 0xa0 ||
  c.toNat = 0x1680 || (0x2000 ≤ c.toNat && c.toNat ≤ 0x200a) ||
  c.toNat = 0x2028 || c.toNat = 0x2029 || c.toNat = 0x202f ||
  c.toNat = 0x205f || c.toNat = 0x3000

/-- Python `str.strip()` (Unicode whitespace, `isPyWs`). -/
def pyStrip (s : PyStr) : PyStr :=
  ((s.dropWhile isPyWs).reverse.dropWhile isPyWs).reverse

/-- Python `str.split("\n")`: split on every newline, keeping empty pieces. -/
def pySplitNl (s : PyStr) : List PyStr := s.splitOn '\n'

/-! ## `shlex.split` (POSIX mode), used by `_command_action_signature` and
`apply_fixes` in `kfix/cli.py`.

State machine translated from CPython's `shlex.read_token` with
`posix=True`, `whitespace_split=True`, no comment characters:
outside quotes a backslash escapes the next character; `'...'` is fully
literal; inside `"..."` a backslash before `"` or `\` yields that character
and before anything else yields backslash plus the character; an unclosed
quote or a trailing backslash raises `ValueError` (modelled as `none`);
a quoted empty string still produces a (possibly empty) token. -/

/-- Lexer state for the `shlex` model. -/
inductive SState where
  | plain : SState
  | esc : SState
  | sq : SState
  | dq : SState
  | dqesc : SState

/-- Emit the current token if it is non-empty or came from quotes. -/
def shClose (cur : PyStr) (quoted : Bool) (acc : List PyStr) : List PyStr :=
  if cur.isEmpty && !quoted then acc else acc ++ [cur]

/-- Main loop of the `shlex.split` model. -/
def shlexGo : PyStr → SState → PyStr → Bool → List PyStr → Option (List PyStr)
  | [], .plain, cur, quoted, acc => some (shClose cur quoted acc)
  | [], _, _, _, _ => none
  | c :: rest, .plain, cur, quoted, acc =>
    if isShWs c then shlexGo rest .plain [] false (shClose cur quoted acc)
    else if c = '\'' then shlexGo rest .sq cur true acc
    else if c = '"' then shlexGo rest .dq cur true acc
    else if c = '\\' then shlexGo rest .esc cur quoted acc
    else shlexGo rest .plain (cur ++ [c]) quoted acc
  | c :: rest, .esc, cur, quoted, acc => shlexGo rest .plain (cur ++ [c]) quoted acc
  | c :: rest, .sq, cur, quoted, acc =>
    if c = '\'' then shlexGo rest .plain cur quoted acc
    else shlexGo rest .sq (cur ++ [c]) quoted acc
  | c :: rest, .dq, cur, quoted, acc =>
    if c = '"' then shlexGo rest .plain cur quoted acc
    else if c = '\\' then shlexGo rest .dqesc cur quoted acc
    else shlexGo rest .dq (cur ++ [c]) quoted acc
  | c :: rest, .dqesc, cur, quoted, acc =>
    if c = '"' || c = '\\' then shlexGo rest .dq (cur ++ [c]) quoted acc
    else shlexGo rest .dq (cur ++ ['\\', c]) quoted acc

/-- `shlex.split(s)`; `none` models an uncaught `ValueError`. -/
def shlexSplit (s : PyStr) : Option (List PyStr) := shlexGo s .plain [] false []

/-! ## Auto-fix policy engine (`kfix/cli.py` lines 32-69). -/

/-- `SAFE_AUTO_FIX_PREFIXES` from `kfix/cli.py`. -/
def SAFE_AUTO_FIX_PREFIXES : List PyStr :=
  [pys "annotate", pys "apply", pys "label", pys "patch",
   pys "rollout restart", pys "scale", pys "set image", pys "set resources"]

/-- `RISKY_AUTO_FIX_VERBS` from `kfix/cli.py`. -/
def RISKY_AUTO_FIX_VERBS : List PyStr := [pys "delete", pys "drain", pys "replace"]

/-- `_command_action_signature` from `kfix/cli.py`: tokenize with `shlex`
(`ValueError` gives `""`); fewer than two tokens or a first token other than
`kubectl` gives `""`; `rollout restart` and `set image`/`set resources` are
recognised as compound signatures; otherwise the second token. -/
def commandActionSignature (command : PyStr) : PyStr :=
  match shlexSplit command with
  | none => []
  | some parts =>
    if parts.length < 2 || !(parts.getD 0 [] == pys "kubectl") then []
    else if parts.length ≥ 3 && parts.getD 1 [] == pys "rollout"
        && parts.getD 2 [] == pys "restart" then pys "rollout restart"
    else if parts.length ≥ 3 && parts.getD 1 [] == pys "set"
        && (parts.getD 2 [] == pys "image" || parts.getD 2 [] == pys "resources") then
      pys "set " ++ parts.getD 2 []
    else parts.getD 1 []

/-- `_is_risky_command` from `kfix/cli.py`. -/
def isRiskyCommand (c : PyStr) : Bool :=
  decide (commandActionSignature c ∈ RISKY_AUTO_FIX_VERBS)

/-- `_is_safe_auto_fix_command` from `kfix/cli.py`. -/
def isSafeAutoFixCommand (c : PyStr) : Bool :=
  decide (commandActionSignature c ∈ SAFE_AUTO_FIX_PREFIXES)

/-! ## Fix executor (`apply_fixes`, `kfix/cli.py` lines 143-219).

`apply_fixes` is modelled as a pure function producing the list of
observable events of one invocation.  Interactive `Confirm.ask` answers are
supplied by an oracle `confirm : Nat → Bool` consumed in prompt order, and
`subprocess.run` is an oracle from the argument vector to an outcome. -/

/-- Result of one `subprocess.run(shlex.split(cmd), capture_output=True,
text=True, timeout=60)` call: an exit with separately captured stdout and
stderr, a `TimeoutExpired`, or another exception caught by the generic
`except Exception` handler. -/
inductive ExecOutcome where
  | exit (code : Int) (stdout stderr : PyStr) : ExecOutcome
  | timeout : ExecOutcome
  | exc : ExecOutcome

/-- Observable events of `apply_fixes`, in emission order.  Indices are
1-based as in `enumerate(commands, 1)`. -/
inductive FixEvent where
  | noCommands : FixEvent
  | invalidPolicy : FixEvent
  | listed (i : Nat) (cmd : PyStr) : FixEvent
  | offNote : FixEvent
  | dryRunNote : FixEvent
  | askedAll (ans : Bool) : FixEvent
  | blockedSafe (i : Nat) : FixEvent
  | asked (i : Nat) (risky : Bool) (ans : Bool) : FixEvent
  | declined (i : Nat) : FixEvent
  | ran (i : Nat) (args : List PyStr) (timeoutSecs : Nat) (outcome : ExecOutcome) : FixEvent
  | runFailedBeforeSpawn (i : Nat) : FixEvent

/-- The `subprocess.run` step for one command: a `shlex` `ValueError` or an
empty argument vector raises before any process is spawned and is caught by
`except Exception` (command reported failed, batch continues); otherwise the
process runs with a 60 second timeout. -/
def execStep (cmd : PyStr) (i : Nat) (ex : List PyStr → ExecOutcome) : FixEvent :=
  match shlexSplit cmd with
  | none => .runFailedBeforeSpawn i
  | some [] => .runFailedBeforeSpawn i
  | some args => .ran i args 60 (ex args)

/-- Per-command loop of `apply_fixes` (`for i, cmd in enumerate(commands, 1)`).
`i` is the 1-based index of the head command and `k` counts `Confirm.ask`
prompts already consumed. -/
def fixLoop (sfx : List PyStr) (i k : Nat) (applyAll autoYes : Bool) (policy : PyStr)
    (confirm : Nat → Bool) (ex : List PyStr → ExecOutcome) : List FixEvent :=
  match sfx with
  | [] => []
  | cmd :: rest =>
    if policy == pys "safe" && !isSafeAutoFixCommand cmd then
      .blockedSafe i :: fixLoop rest (i + 1) k applyAll autoYes policy confirm ex
    else
      if (!applyAll && !autoYes) || (isRiskyCommand cmd && !autoYes) then
        if confirm k then
          .asked i (isRiskyCommand cmd) true :: execStep cmd i ex ::
            fixLoop rest (i + 1) (k + 1) applyAll autoYes policy confirm ex
        else
          .asked i (isRiskyCommand cmd) false :: .declined i ::
            fixLoop rest (i + 1) (k + 1) applyAll autoYes policy confirm ex
      else
        execStep cmd i ex :: fixLoop rest (i + 1) k applyAll autoYes policy confirm ex

/-- `apply_fixes(commands, auto_yes, dry_run, policy)` from `kfix/cli.py`,
returning the event trace of one invocation. -/
def applyFixes (commands : List PyStr) (autoYes dryRun : Bool) (policy : PyStr)
    (confirm : Nat → Bool) (ex : List PyStr → ExecOutcome) : List FixEvent :=
  if commands.isEmpty then [.noCommands]
  else if !(policy == pys "off" || policy == pys "review" || policy == pys "safe") then
    [.invalidPolicy]
  else
    let listing := (commands.enumFrom 1).map fun p => FixEvent.listed p.1 p.2
    if policy == pys "off" then listing ++ [.offNote]
    else if dryRun then listing ++ [.dryRunNote]
    else
      let askBatch := commands.length > 1 && !autoYes
      let applyAll := if askBatch then confirm 0 else autoYes
      let batchEv : List FixEvent := if askBatch then [.askedAll (confirm 0)] else []
      let k0 := if askBatch then 1 else 0
      listing ++ batchEv ++ fixLoop commands 1 k0 applyAll autoYes policy confirm ex


/-! ## Trace observations used by the policy / executor theorems. -/

/-- The 1-based command index an event refers to, for per-command events
(prompts, skips, executions); `none` for batch-level events. -/
def cmdEventIdx : FixEvent → Option Nat
  | .blockedSafe i => some i
  | .asked i _ _ => some i
  | .declined i => some i
  | .ran i _ _ _ => some i
  | .runFailedBeforeSpawn i => some i
  | _ => none

/-- Projection of a trace event to its spawn record, if it is a spawn. -/
def ranOfE : FixEvent → Option (Nat × List PyStr × Nat)
  | .ran i args tmo _ => some (i, args, tmo)
  | _ => none

/-- The spawn records (index, argument vector, timeout) of a trace. -/
def ranOf (t : List FixEvent) : List (Nat × List PyStr × Nat) := t.filterMap ranOfE

theorem cmdEventIdx_execStep (cmd : PyStr) (i : Nat) (ex : List PyStr → ExecOutcome) :
    cmdEventIdx (execStep cmd i ex) = some i := by
  unfold execStep
  rcases h : shlexSplit cmd with _ | ⟨_ | ⟨a, l⟩⟩ <;> rfl

theorem ranOfE_execStep (cmd : PyStr) (i : Nat) (ex : List PyStr → ExecOutcome) :
    ranOfE (execStep cmd i ex) =
      match shlexSplit cmd with
      | some (a :: l) => some (i, a :: l, 60)
      | _ => none := by
  unfold execStep
  rcases h : shlexSplit cmd with _ | ⟨_ | ⟨a, l⟩⟩ <;> simp [ranOfE]

/-- Every per-command event emitted by `fixLoop` starting at index `i`
refers to a command index at least `i`. -/
theorem fixLoop_idx_ge (sfx : List PyStr) (i k : Nat) (aa ay : Bool) (pol : PyStr)
    (conf : Nat → Bool) (ex : List PyStr → ExecOutcome) :
    ∀ e ∈ fixLoop sfx i k aa ay pol conf ex, ∀ j, cmdEventIdx e = some j → i ≤ j := by
  induction sfx generalizing i k with
  | nil => intro e he; simp [fixLoop] at he
  | cons cmd rest ih =>
    intro e he j hj
    rw [fixLoop] at he
    by_cases h1 : (pol == pys "safe" && !isSafeAutoFixCommand cmd) = true
    · rw [if_pos h1] at he
      rcases List.mem_cons.mp he with rfl | htl
      · simp [cmdEventIdx] at hj; omega
      · exact Nat.le_of_succ_le (ih (i + 1) k e htl j hj)
    · rw [if_neg h1] at he
      by_cases h2 : ((!aa && !ay) || (isRiskyCommand cmd && !ay)) = true
      · rw [if_pos h2] at he
        by_cases h3 : conf k = true
        · rw [if_pos h3] at he
          rcases List.mem_cons.mp he with rfl | he2
          · simp [cmdEventIdx] at hj; omega
          · rcases List.mem_cons.mp he2 with rfl | htl
            · rw [cmdEventIdx_execStep] at hj
              injection hj with hj; omega
            · exact Nat.le_of_succ_le (ih (i + 1) (k + 1) e htl j hj)
        · rw [if_neg h3] at he
          rcases List.mem_cons.mp he with rfl | he2
          · simp [cmdEventIdx] at hj; omega
          · rcases List.mem_cons.mp he2 with rfl | htl
            · simp [cmdEventIdx] at hj; omega
            · exact Nat.le_of_succ_le (ih (i + 1) (k + 1) e htl j hj)
      · rw [if_neg h2] at he
        rcases List.mem_cons.mp he with rfl | htl
        · rw [cmdEventIdx_execStep] at hj
          injection hj with hj; omega
        · exact Nat.le_of_succ_le (ih (i + 1) k e htl j hj)

/-- Under policy `safe`, a command that is not safe-eligible is blocked:
`fixLoop` emits `blockedSafe` for its index. -/
theorem fixLoop_blocked_mem (sfx : List PyStr) (j i k : Nat) (aa ay : Bool)
    (conf : Nat → Bool) (ex : List PyStr → ExecOutcome)
    (hj : j < sfx.length) (hs : isSafeAutoFixCommand (sfx.getD j []) = false) :
    FixEvent.blockedSafe (i + j) ∈ fixLoop sfx i k aa ay (pys "safe") conf ex := by
  induction sfx generalizing j i k with
  | nil => simp at hj
  | cons cmd rest ih =>
    rw [fixLoop]
    match j with
    | 0 =>
      have hcond : ((pys "safe" == pys "safe") && !isSafeAutoFixCommand cmd) = true := by
        simp only [List.getD_cons_zero] at hs
        simp [hs]
      rw [if_pos hcond]
      simp
    | j' + 1 =>
      simp only [List.getD_cons_succ] at hs
      have hj' : j' < rest.length := by simpa using Nat.lt_of_succ_lt_succ hj
      have tail := ih j' (i + 1) k hj' hs
      have tail' := ih j' (i + 1) (k + 1) hj' hs
      have harith : i + 1 + j' = i + (j' + 1) := by omega
      rw [harith] at tail tail'
      by_cases h1 : ((pys "safe" == pys "safe") && !isSafeAutoFixCommand cmd) = true
      · rw [if_pos h1]; exact List.mem_cons_of_mem _ tail
      · rw [if_neg h1]
        by_cases h2 : ((!aa && !ay) || (isRiskyCommand cmd && !ay)) = true
        · rw [if_pos h2]
          by_cases h3 : conf k = true
          · rw [if_pos h3]
            exact List.mem_cons_of_mem _ (List.mem_cons_of_mem _ tail')
          · rw [if_neg h3]
            exact List.mem_cons_of_mem _ (List.mem_cons_of_mem _ tail')
        · rw [if_neg h2]; exact List.mem_cons_of_mem _ tail

/-- Under policy `safe`, a command that is not safe-eligible triggers no
individual confirmation prompt and no spawn: its iteration emits only
`blockedSafe`. -/
theorem fixLoop_blocked_only (sfx : List PyStr) (j i k : Nat) (aa ay : Bool)
    (conf : Nat → Bool) (ex : List PyStr → ExecOutcome)
    (hj : j < sfx.length) (hs : isSafeAutoFixCommand (sfx.getD j []) = false) :
    (∀ r a, FixEvent.asked (i + j) r a ∉ fixLoop sfx i k aa ay (pys "safe") conf ex) ∧
    (∀ args tmo oc, FixEvent.ran (i + j) args tmo oc ∉
        fixLoop sfx i k aa ay (pys "safe") conf ex) := by
  induction sfx generalizing j i k with
  | nil => simp at hj
  | cons cmd rest ih =>
    match j with
    | 0 =>
      have hcond : ((pys "safe" == pys "safe") && !isSafeAutoFixCommand cmd) = true := by
        simp only [List.getD_cons_zero] at hs
        simp [hs]
      rw [fixLoop, if_pos hcond]
      have hge := fixLoop_idx_ge rest (i + 1) k aa ay (pys "safe") conf ex
      constructor
      · intro r a hmem
        rcases List.mem_cons.mp hmem with heq | htl
        · exact FixEvent.noConfusion heq
        · have := hge _ htl (i + 0) (by simp [cmdEventIdx])
          omega
      · intro args tmo oc hmem
        rcases List.mem_cons.mp hmem with heq | htl
        · exact FixEvent.noConfusion heq
        · have := hge _ htl (i + 0) (by simp [cmdEventIdx])
          omega
    | j' + 1 =>
      simp only [List.getD_cons_succ] at hs
      have hj' : j' < rest.length := by simpa using Nat.lt_of_succ_lt_succ hj
      have tail := ih j' (i + 1) k hj' hs
      have tail' := ih j' (i + 1) (k + 1) hj' hs
      have harith : i + 1 + j' = i + (j' + 1) := by omega
      rw [harith] at tail tail'
      rw [fixLoop]
      by_cases h1 : ((pys "safe" == pys "safe") && !isSafeAutoFixCommand cmd) = true
      · rw [if_pos h1]
        refine ⟨fun r a hmem => ?_, fun args tmo oc hmem => ?_⟩ <;>
          rcases List.mem_cons.mp hmem with heq | htl
        · exact FixEvent.noConfusion heq
        · exact tail.1 r a htl
        · exact FixEvent.noConfusion heq
        · exact tail.2 args tmo oc htl
      · rw [if_neg h1]
        by_cases h2 : ((!aa && !ay) || (isRiskyCommand cmd && !ay)) = true
        · rw [if_pos h2]
          by_cases h3 : conf k = true
          · rw [if_pos h3]
            refine ⟨fun r a hmem => ?_, fun args tmo oc hmem => ?_⟩ <;>
              rcases List.mem_cons.mp hmem with heq | hm2
            · injection heq with h h2 h3; omega
            · rcases List.mem_cons.mp hm2 with heq2 | htl
              · have := cmdEventIdx_execStep cmd i ex
                rw [← heq2] at this
                simp [cmdEventIdx] at this
              · exact tail'.1 r a htl
            · exact FixEvent.noConfusion heq
            · rcases List.mem_cons.mp hm2 with heq2 | htl
              · have := cmdEventIdx_execStep cmd i ex
                rw [← heq2] at this
                simp [cmdEventIdx] at this
              · exact tail'.2 args tmo oc htl
          · rw [if_neg h3]
            refine ⟨fun r a hmem => ?_, fun args tmo oc hmem => ?_⟩ <;>
              rcases List.mem_cons.mp hmem with heq | hm2
            · injection heq with h h2 h3; omega
            · rcases List.mem_cons.mp hm2 with heq2 | htl
              · exact FixEvent.noConfusion heq2
              · exact tail'.1 r a htl
            · exact FixEvent.noConfusion heq
            · rcases List.mem_cons.mp hm2 with heq2 | htl
              · exact FixEvent.noConfusion heq2
              · exact tail'.2 args tmo oc htl
        · rw [if_neg h2]
          refine ⟨fun r a hmem => ?_, fun args tmo oc hmem => ?_⟩ <;>
            rcases List.mem_cons.mp hmem with heq | htl
          · have := cmdEventIdx_execStep cmd i ex
            rw [← heq] at this
            simp [cmdEventIdx] at this
          · exact tail.1 r a htl
          · have := cmdEventIdx_execStep cmd i ex
            rw [← heq] at this
            simp [cmdEventIdx] at this
          · exact tail.2 args tmo oc htl

/-- No spawn, prompt, skip or block event occurs in the command-listing
display or the batch-level prompt of `apply_fixes`. -/
theorem applyFixes_prefix_events (cmds : List PyStr) (j : Nat) :
    (∀ r a, FixEvent.asked j r a ∉ (cmds.enumFrom 1).map fun p => FixEvent.listed p.1 p.2) ∧
    (∀ args tmo oc, FixEvent.ran j args tmo oc ∉
        (cmds.enumFrom 1).map fun p => FixEvent.listed p.1 p.2) ∧
    (FixEvent.blockedSafe j ∉ (cmds.enumFrom 1).map fun p => FixEvent.listed p.1 p.2) := by
  refine ⟨fun r a hmem => ?_, fun args tmo oc hmem => ?_, fun hmem => ?_⟩ <;>
    · rcases List.mem_map.mp hmem with ⟨p, _, hp⟩
      exact FixEvent.noConfusion hp

/-- Under policy `safe` (with `dry_run=False`), a command that is not
safe-eligible is skipped: the trace contains `blockedSafe` for its index and
no individual prompt and no spawn for it, for every value of the
yes-to-all flag and every prompt/subprocess oracle. -/
theorem applyFixes_safe_blocks (cmds : List PyStr) (ay : Bool) (conf : Nat → Bool)
    (ex : List PyStr → ExecOutcome) (i : Nat) (hi : i < cmds.length)
    (hs : isSafeAutoFixCommand (cmds.getD i []) = false) :
    FixEvent.blockedSafe (i + 1) ∈ applyFixes cmds ay false (pys "safe") conf ex ∧
    (∀ r a, FixEvent.asked (i + 1) r a ∉ applyFixes cmds ay false (pys "safe") conf ex) ∧
    (∀ args tmo oc, FixEvent.ran (i + 1) args tmo oc ∉
        applyFixes cmds ay false (pys "safe") conf ex) := by
  have hne : cmds.isEmpty = false := by
    cases cmds
    · simp at hi
    · rfl
  have hvalid : (!(pys "safe" == pys "off" || pys "safe" == pys "review"
      || pys "safe" == pys "safe")) = false := by decide
  have hoff : (pys "safe" == pys "off") = false := by decide
  rw [applyFixes, hne, hvalid, hoff]
  simp only [Bool.false_eq_true, if_false]
  set listing := (cmds.enumFrom 1).map fun p => FixEvent.listed p.1 p.2 with hlst
  set askBatch := (cmds.length > 1 && !ay) with hab
  set applyAll := (if askBatch then conf 0 else ay) with haa
  set batchEv : List FixEvent := (if askBatch then [FixEvent.askedAll (conf 0)] else []) with hbe
  set k0 := (if askBatch then 1 else 0) with hk0
  have hmem := fixLoop_blocked_mem cmds i 1 k0 applyAll ay conf ex hi hs
  have honly := fixLoop_blocked_only cmds i 1 k0 applyAll ay conf ex hi hs
  have harith : 1 + i = i + 1 := by omega
  rw [harith] at hmem honly
  have hpre := applyFixes_prefix_events cmds (i + 1)
  have hbatchAsk : ∀ r a, FixEvent.asked (i + 1) r a ∉ batchEv := by
    intro r a hm
    rw [hbe] at hm
    split at hm <;> simp at hm
  have hbatchRan : ∀ args tmo oc, FixEvent.ran (i + 1) args tmo oc ∉ batchEv := by
    intro args tmo oc hm
    rw [hbe] at hm
    split at hm <;> simp at hm
  refine ⟨?_, fun r a hm => ?_, fun args tmo oc hm => ?_⟩
  · exact List.mem_append.mpr (Or.inr hmem)
  · rcases List.mem_append.mp hm with h1 | h2
    · rcases List.mem_append.mp h1 with h1a | h1b
      · exact hpre.1 r a h1a
      · exact hbatchAsk r a h1b
    · exact honly.1 r a h2
  · rcases List.mem_append.mp hm with h1 | h2
    · rcases List.mem_append.mp h1 with h1a | h1b
      · exact hpre.2.1 args tmo oc h1a
      · exact hbatchRan args tmo oc h1b
    · exact honly.2 args tmo oc h2

/-- A command whose action signature is risky (`delete`, `drain`, `replace`)
is never on the safe-eligible allowlist. -/
theorem risky_not_safe (c : PyStr) (h : isRiskyCommand c = true) :
    isSafeAutoFixCommand c = false := by
  unfold isRiskyCommand at h
  unfold isSafeAutoFixCommand
  have hmem := of_decide_eq_true h
  simp only [RISKY_AUTO_FIX_VERBS, List.mem_cons, List.mem_singleton,
    List.not_mem_nil, or_false] at hmem
  rcases hmem with h1 | h1 | h1 <;> (rw [h1]; decide)

/-- Claim C1: for every batch of command strings and every value of the
yes-to-all flag, when `apply_fixes` runs with policy `safe`, a command whose
action signature is `delete`, `drain` or `replace` is never executed: its
trace position shows it blocked by the safe policy, with no individual
confirmation prompt and no `subprocess.run` spawn for it, for every prompt
oracle and every subprocess oracle. -/
theorem c1_safe_policy_blocks_risky (cmds : List PyStr) (ay : Bool)
    (conf : Nat → Bool) (ex : List PyStr → ExecOutcome) (i : Nat)
    (hi : i < cmds.length)
    (hrisk : commandActionSignature (cmds.getD i []) ∈ RISKY_AUTO_FIX_VERBS) :
    FixEvent.blockedSafe (i + 1) ∈ applyFixes cmds ay false (pys "safe") conf ex ∧
    (∀ r a, FixEvent.asked (i + 1) r a ∉ applyFixes cmds ay false (pys "safe") conf ex) ∧
    (∀ args tmo oc, FixEvent.ran (i + 1) args tmo oc ∉
        applyFixes cmds ay false (pys "safe") conf ex) :=
  applyFixes_safe_blocks cmds ay conf ex i hi
    (risky_not_safe _ (decide_eq_true hrisk))

/-- Witness for C1 at a concrete risky command with the yes-to-all flag set. -/
theorem c1_safe_policy_blocks_risky_witness :
    FixEvent.blockedSafe 1 ∈ applyFixes [pys "kubectl delete pod bad-pod -n default"]
      true false (pys "safe") (fun _ => true) (fun _ => ExecOutcome.exc) :=
  (c1_safe_policy_blocks_risky [pys "kubectl delete pod bad-pod -n default"]
    true (fun _ => true) (fun _ => ExecOutcome.exc) 0 (by decide) (by decide)).1

/-- Claim C10: `_command_action_signature` maps every command that cannot be
shell-tokenized, has fewer than two tokens, or whose first token is not
`kubectl` to the empty signature; the empty signature is neither risky nor
safe-eligible, so every such command is blocked (skipped without prompting
or executing) under policy `safe`. -/
theorem c10_unclassifiable_blocked (cmd : PyStr)
    (h : shlexSplit cmd = none ∨
      ∃ parts, shlexSplit cmd = some parts ∧
        (parts.length < 2 ∨ parts.getD 0 [] ≠ pys "kubectl")) :
    commandActionSignature cmd = [] ∧
    isRiskyCommand cmd = false ∧
    isSafeAutoFixCommand cmd = false ∧
    ∀ cmds (ay : Bool) (conf : Nat → Bool) (ex : List PyStr → ExecOutcome) i,
      i < cmds.length → cmds.getD i [] = cmd →
      FixEvent.blockedSafe (i + 1) ∈ applyFixes cmds ay false (pys "safe") conf ex ∧
      (∀ r a, FixEvent.asked (i + 1) r a ∉ applyFixes cmds ay false (pys "safe") conf ex) ∧
      (∀ args tmo oc, FixEvent.ran (i + 1) args tmo oc ∉
          applyFixes cmds ay false (pys "safe") conf ex) := by
  have hsig : commandActionSignature cmd = [] := by
    unfold commandActionSignature
    rcases h with hn | ⟨parts, hp, hcase⟩
    · simp only [hn]
    · 
      have hcond : (parts.length < 2 || !(parts.getD 0 [] == pys "kubectl")) = true := by
        rcases hcase with hlt | hne
        · simp [hlt]
        · have hb : (parts.getD 0 [] == pys "kubectl") = false := beq_eq_false_iff_ne.mpr hne
          rw [hb]
          simp
      simp only [hp]
      rw [if_pos hcond]
  have hrisk : isRiskyCommand cmd = false := by
    unfold isRiskyCommand
    rw [hsig]
    decide
  have hsafe : isSafeAutoFixCommand cmd = false := by
    unfold isSafeAutoFixCommand
    rw [hsig]
    decide
  refine ⟨hsig, hrisk, hsafe, fun cmds ay conf ex i hi hcmd => ?_⟩
  exact applyFixes_safe_blocks cmds ay conf ex i hi (hcmd ▸ hsafe)

/-- Witness for C10 at a command with an unbalanced quote (shlex raises),
inside a one-command batch under policy `safe`. -/
theorem c10_unclassifiable_blocked_witness :
    commandActionSignature (pys "kubectl 'unclosed") = [] ∧
    FixEvent.blockedSafe 1 ∈ applyFixes [pys "kubectl 'unclosed"] true false
      (pys "safe") (fun _ => true) (fun _ => ExecOutcome.exc) := by
  have h := c10_unclassifiable_blocked (pys "kubectl 'unclosed") (Or.inl (by decide))
  exact ⟨h.1, (h.2.2.2 [pys "kubectl 'unclosed"] true (fun _ => true)
    (fun _ => ExecOutcome.exc) 0 (by decide) (by decide)).1⟩

/-- Dropping a non-spawn event from a trace leaves the spawn records. -/
theorem ranOf_skip_cons (e : FixEvent) (he : ranOfE e = none) (t : List FixEvent) :
    ranOf (e :: t) = ranOf t := by
  simp only [ranOf, List.filterMap_cons, he]

/-- The spawn record contributed by one `execStep` depends only on the
command text, never on the subprocess outcome. -/
theorem ranOf_execStep_cons (cmd : PyStr) (i : Nat)
    (ex1 ex2 : List PyStr → ExecOutcome) (t1 t2 : List FixEvent)
    (h : ranOf t1 = ranOf t2) :
    ranOf (execStep cmd i ex1 :: t1) = ranOf (execStep cmd i ex2 :: t2) := by
  simp only [ranOf, List.filterMap_cons] at h ⊢
  rw [ranOfE_execStep, ranOfE_execStep]
  rcases hs : shlexSplit cmd with _ | ⟨_ | ⟨a, l⟩⟩ <;> simp only [] <;> rw [h]

/-- The spawn records of `fixLoop` do not depend on the subprocess outcomes:
a failure or timeout of one command never changes which later commands are
spawned. -/
theorem fixLoop_ranOf_indep (sfx : List PyStr) (i k : Nat) (aa ay : Bool) (pol : PyStr)
    (conf : Nat → Bool) (ex1 ex2 : List PyStr → ExecOutcome) :
    ranOf (fixLoop sfx i k aa ay pol conf ex1) =
      ranOf (fixLoop sfx i k aa ay pol conf ex2) := by
  induction sfx generalizing i k with
  | nil => rfl
  | cons cmd rest ih =>
    rw [fixLoop, fixLoop]
    by_cases h1 : (pol == pys "safe" && !isSafeAutoFixCommand cmd) = true
    · rw [if_pos h1, if_pos h1, ranOf_skip_cons (FixEvent.blockedSafe i) rfl,
        ranOf_skip_cons (FixEvent.blockedSafe i) rfl]
      exact ih (i + 1) k
    · rw [if_neg h1, if_neg h1]
      by_cases h2 : ((!aa && !ay) || (isRiskyCommand cmd && !ay)) = true
      · rw [if_pos h2, if_pos h2]
        by_cases h3 : conf k = true
        · rw [if_pos h3, if_pos h3,
            ranOf_skip_cons (FixEvent.asked i (isRiskyCommand cmd) true) rfl,
            ranOf_skip_cons (FixEvent.asked i (isRiskyCommand cmd) true) rfl]
          exact ranOf_execStep_cons cmd i ex1 ex2 _ _ (ih (i + 1) (k + 1))
        · rw [if_neg h3, if_neg h3,
            ranOf_skip_cons (FixEvent.asked i (isRiskyCommand cmd) false) rfl,
            ranOf_skip_cons (FixEvent.asked i (isRiskyCommand cmd) false) rfl,
            ranOf_skip_cons (FixEvent.declined i) rfl,
            ranOf_skip_cons (FixEvent.declined i) rfl]
          exact ih (i + 1) (k + 1)
      · rw [if_neg h2, if_neg h2]
        exact ranOf_execStep_cons cmd i ex1 ex2 _ _ (ih (i + 1) k)

/-- Every spawn in a `fixLoop` trace uses the 60-second timeout and the
`shlex` tokenization of the command at its index. -/
theorem fixLoop_ran_mem (sfx : List PyStr) (i k : Nat) (aa ay : Bool) (pol : PyStr)
    (conf : Nat → Bool) (ex : List PyStr → ExecOutcome) (j : Nat) (args : List PyStr)
    (tmo : Nat) (oc : ExecOutcome)
    (hmem : FixEvent.ran j args tmo oc ∈ fixLoop sfx i k aa ay pol conf ex) :
    tmo = 60 ∧ ∃ d, d < sfx.length ∧ j = i + d ∧ shlexSplit (sfx.getD d []) = some args := by
  induction sfx generalizing i k with
  | nil => simp [fixLoop] at hmem
  | cons cmd rest ih =>
    have step : ∀ k', FixEvent.ran j args tmo oc ∈ fixLoop rest (i + 1) k' aa ay pol conf ex →
        tmo = 60 ∧ ∃ d, d < (cmd :: rest).length ∧ j = i + d ∧
          shlexSplit ((cmd :: rest).getD d []) = some args := by
      intro k' hm
      obtain ⟨ht, d, hd, hj, hs⟩ := ih (i + 1) k' hm
      exact ⟨ht, d + 1, by simpa using Nat.succ_lt_succ hd, by omega, by simpa using hs⟩
    have fromExec : FixEvent.ran j args tmo oc = execStep cmd i ex →
        tmo = 60 ∧ ∃ d, d < (cmd :: rest).length ∧ j = i + d ∧
          shlexSplit ((cmd :: rest).getD d []) = some args := by
      intro heq
      unfold execStep at heq
      rcases hs : shlexSplit cmd with _ | ⟨_ | ⟨a, l⟩⟩ <;> rw [hs] at heq
      · exact FixEvent.noConfusion heq
      · exact FixEvent.noConfusion heq
      · injection heq with h1 h2 h3 h4
        exact ⟨h3, 0, by simp, by omega, by simp [hs, h2]⟩
    rw [fixLoop] at hmem
    by_cases h1 : (pol == pys "safe" && !isSafeAutoFixCommand cmd) = true
    · rw [if_pos h1] at hmem
      rcases List.mem_cons.mp hmem with heq | htl
      · exact FixEvent.noConfusion heq
      · exact step k htl
    · rw [if_neg h1] at hmem
      by_cases h2 : ((!aa && !ay) || (isRiskyCommand cmd && !ay)) = true
      · rw [if_pos h2] at hmem
        by_cases h3 : conf k = true
        · rw [if_pos h3] at hmem
          rcases List.mem_cons.mp hmem with heq | hm2
          · exact FixEvent.noConfusion heq
          · rcases List.mem_cons.mp hm2 with heq2 | htl
            · exact fromExec heq2
            · exact step (k + 1) htl
        · rw [if_neg h3] at hmem
          rcases List.mem_cons.mp hmem with heq | hm2
          · exact FixEvent.noConfusion heq
          · rcases List.mem_cons.mp hm2 with heq2 | htl
            · exact FixEvent.noConfusion heq2
            · exact step (k + 1) htl
      · rw [if_neg h2] at hmem
        rcases List.mem_cons.mp hmem with heq | htl
        · exact fromExec heq
        · exact step k htl

/-- Spawn indices recorded by `fixLoop` are bounded below by the start index. -/
theorem fixLoop_ranOf_ge (sfx : List PyStr) (i k : Nat) (aa ay : Bool) (pol : PyStr)
    (conf : Nat → Bool) (ex : List PyStr → ExecOutcome) :
    ∀ p ∈ ranOf (fixLoop sfx i k aa ay pol conf ex), i ≤ p.1 := by
  intro p hp
  rcases List.mem_filterMap.mp hp with ⟨e, he, hee⟩
  rcases e with _ | _ | _ | _ | _ | _ | _ | _ | _ | ⟨j, args, tmo, oc⟩ | _
  case ran =>
    simp only [ranOfE] at hee
    injection hee with hee
    have := fixLoop_idx_ge sfx i k aa ay pol conf ex _ he j rfl
    rw [← hee]
    exact this
  all_goals simp [ranOfE] at hee

/-- Spawn records of `fixLoop` occur in strictly increasing index order:
top-to-bottom batch order, no reordering, no retry. -/
theorem fixLoop_ran_sorted (sfx : List PyStr) (i k : Nat) (aa ay : Bool) (pol : PyStr)
    (conf : Nat → Bool) (ex : List PyStr → ExecOutcome) :
    (ranOf (fixLoop sfx i k aa ay pol conf ex)).Pairwise (fun p q => p.1 < q.1) := by
  induction sfx generalizing i k with
  | nil => simp [fixLoop, ranOf]
  | cons cmd rest ih =>
    have tailb : ∀ k', ∀ p ∈ ranOf (fixLoop rest (i + 1) k' aa ay pol conf ex), i < p.1 :=
      fun k' p hp => fixLoop_ranOf_ge rest (i + 1) k' aa ay pol conf ex p hp
    have execCons : ∀ k', (ranOf (execStep cmd i ex ::
        fixLoop rest (i + 1) k' aa ay pol conf ex)).Pairwise (fun p q => p.1 < q.1) := by
      intro k'
      simp only [ranOf, List.filterMap_cons]
      rw [ranOfE_execStep]
      rcases h2 : shlexSplit cmd with _ | ⟨_ | ⟨a, l⟩⟩ <;> simp only []
      · exact ih (i + 1) k'
      · exact ih (i + 1) k'
      · refine List.Pairwise.cons (fun q hq => ?_) (ih (i + 1) k')
        exact tailb k' q hq
    rw [fixLoop]
    by_cases h1 : (pol == pys "safe" && !isSafeAutoFixCommand cmd) = true
    · rw [if_pos h1, ranOf_skip_cons (FixEvent.blockedSafe i) rfl]
      exact ih (i + 1) k
    · rw [if_neg h1]
      by_cases h2 : ((!aa && !ay) || (isRiskyCommand cmd && !ay)) = true
      · rw [if_pos h2]
        by_cases h3 : conf k = true
        · rw [if_pos h3, ranOf_skip_cons (FixEvent.asked i (isRiskyCommand cmd) true) rfl]
          exact execCons (k + 1)
        · rw [if_neg h3, ranOf_skip_cons (FixEvent.asked i (isRiskyCommand cmd) false) rfl,
            ranOf_skip_cons (FixEvent.declined i) rfl]
          exact ih (i + 1) (k + 1)
      · rw [if_neg h2]
        exact execCons k

/-- Spawn records distribute over trace concatenation. -/
theorem ranOf_append (s t : List FixEvent) : ranOf (s ++ t) = ranOf s ++ ranOf t :=
  List.filterMap_append s t ranOfE

/-- The command-listing display contributes no spawn records. -/
theorem ranOf_listing (cmds : List PyStr) :
    ranOf ((cmds.enumFrom 1).map fun p => FixEvent.listed p.1 p.2) = [] := by
  simp only [ranOf, List.filterMap_map]
  refine List.filterMap_eq_nil_iff.mpr fun p _ => rfl

/-- Claim C8: for every batch, the executor spawns each approved command
tokenized by `shlex` with a 60-second timeout; which commands are spawned
does not depend on any command's outcome (failures are isolated and never
halt the batch); and spawns happen in strictly increasing batch order with
no reordering and no retry. -/
theorem c8_executor_isolated_ordered (cmds : List PyStr) (ay : Bool) (pol : PyStr)
    (conf : Nat → Bool) (ex1 ex2 : List PyStr → ExecOutcome)
    (hpol : pol = pys "off" ∨ pol = pys "review" ∨ pol = pys "safe") :
    ranOf (applyFixes cmds ay false pol conf ex1) =
      ranOf (applyFixes cmds ay false pol conf ex2) ∧
    (∀ j args tmo oc, FixEvent.ran j args tmo oc ∈ applyFixes cmds ay false pol conf ex1 →
      tmo = 60 ∧ ∃ d, d < cmds.length ∧ j = d + 1 ∧ shlexSplit (cmds.getD d []) = some args) ∧
    (ranOf (applyFixes cmds ay false pol conf ex1)).Pairwise (fun p q => p.1 < q.1) := by
  have hval : (!(pol == pys "off" || pol == pys "review" || pol == pys "safe")) = false := by
    rcases hpol with rfl | rfl | rfl <;> decide
  simp only [applyFixes]
  by_cases hempty : cmds.isEmpty = true
  · rw [if_pos hempty, if_pos hempty]
    refine ⟨rfl, fun j args tmo oc hmem => ?_, by simp [ranOf, ranOfE]⟩
    simp at hmem
  · rw [if_neg hempty, if_neg hempty, hval]
    simp only [Bool.false_eq_true, if_false]
    by_cases hoffb : (pol == pys "off") = true
    · rw [if_pos hoffb, if_pos hoffb]
      refine ⟨rfl, fun j args tmo oc hmem => ?_, ?_⟩
      · rcases List.mem_append.mp hmem with h1 | h2
        · rcases List.mem_map.mp h1 with ⟨p, _, hp⟩
          exact FixEvent.noConfusion hp
        · simp at h2
      · rw [ranOf_append, ranOf_listing]
        simp [ranOf, ranOfE]
    · rw [if_neg hoffb, if_neg hoffb]
      set askBatch := (cmds.length > 1 && !ay) with hab
      set applyAll := (if askBatch then conf 0 else ay) with haa
      set batchEv : List FixEvent :=
        (if askBatch then [FixEvent.askedAll (conf 0)] else []) with hbe
      set k0 := (if askBatch then 1 else 0) with hk0
      have hBatchRan : ranOf batchEv = [] := by
        rw [hbe]
        split <;> rfl
      refine ⟨?_, fun j args tmo oc hmem => ?_, ?_⟩
      · rw [ranOf_append, ranOf_append, ranOf_listing, hBatchRan]
        rw [ranOf_append, ranOf_append, ranOf_listing, hBatchRan]
        simp only [List.nil_append]
        exact fixLoop_ranOf_indep cmds 1 k0 applyAll ay pol conf ex1 ex2
      · rcases List.mem_append.mp hmem with h1 | h2
        · rcases List.mem_append.mp h1 with h1a | h1b
          · rcases List.mem_map.mp h1a with ⟨p, _, hp⟩
            exact FixEvent.noConfusion hp
          · rw [hbe] at h1b
            split at h1b <;> simp at h1b
        · obtain ⟨ht, d, hd, hj, hs⟩ :=
            fixLoop_ran_mem cmds 1 k0 applyAll ay pol conf ex1 j args tmo oc h2
          exact ⟨ht, d, hd, by omega, hs⟩
      · rw [ranOf_append, ranOf_append, ranOf_listing, hBatchRan]
        simp only [List.nil_append]
        exact fixLoop_ran_sorted cmds 1 k0 applyAll ay pol conf ex1

/-- Witness for C8: a two-command batch where the first command fails with a
timeout under one oracle and succeeds under the other; the spawn records
(indices, argument vectors, 60-second timeouts) are identical, so the first
command's failure did not prevent the second from running. -/
theorem c8_executor_isolated_ordered_witness :
    ranOf (applyFixes [pys "kubectl apply -f a.yaml", pys "kubectl scale deploy d --replicas=2"]
        true false (pys "review") (fun _ => true) (fun _ => ExecOutcome.timeout)) =
      ranOf (applyFixes [pys "kubectl apply -f a.yaml", pys "kubectl scale deploy d --replicas=2"]
        true false (pys "review") (fun _ => true) (fun _ => ExecOutcome.exit 0 [] [])) :=
  (c8_executor_isolated_ordered
    [pys "kubectl apply -f a.yaml", pys "kubectl scale deploy d --replicas=2"]
    true (pys "review") (fun _ => true) (fun _ => ExecOutcome.timeout)
    (fun _ => ExecOutcome.exit 0 [] []) (Or.inr (Or.inl rfl))).1

/-! ## JSON values (`kfix/kubectl.py` scanners).

Parsed `json.loads` output: numbers restricted to integers (no claim
involves fractional values), objects as association lists with distinct
keys (so lookup by first match models Python dict lookup). -/

/-- A parsed JSON value. -/
inductive Json where
  | null : Json
  | bool (b : Bool) : Json
  | num (n : Int) : Json
  | str (s : List Char) : Json
  | arr (xs : List Json) : Json
  | obj (kvs : List (List Char × Json)) : Json

mutual

/-- Structural equality test on JSON values. -/
def Json.beq : Json → Json → Bool
  | .null, .null => true
  | .bool a, .bool b => a == b
  | .num a, .num b => a == b
  | .str a, .str b => a == b
  | .arr xs, .arr ys => Json.beqArr xs ys
  | .obj xs, .obj ys => Json.beqObj xs ys
  | _, _ => false

/-- Equality test on JSON arrays. -/
def Json.beqArr : List Json → List Json → Bool
  | [], [] => true
  | x :: xs, y :: ys => Json.beq x y && Json.beqArr xs ys
  | _, _ => false

/-- Equality test on JSON object entry lists. -/
def Json.beqObj : List (List Char × Json) → List (List Char × Json) → Bool
  | [], [] => true
  | (k, v) :: xs, (l, w) :: ys => k == l && Json.beq v w && Json.beqObj xs ys
  | _, _ => false

end

mutual

theorem Json.beq_iff : ∀ a b : Json, Json.beq a b = true ↔ a = b
  | .null, .null => by simp [Json.beq]
  | .bool _, .bool _ => by simp [Json.beq]
  | .num _, .num _ => by simp [Json.beq]
  | .str _, .str _ => by simp [Json.beq]
  | .arr xs, .arr ys => by
    rw [Json.beq, Json.beqArr_iff xs ys]
    simp
  | .obj xs, .obj ys => by
    rw [Json.beq, Json.beqObj_iff xs ys]
    simp
  | .null, .bool _ => by simp [Json.beq]
  | .null, .num _ => by simp [Json.beq]
  | .null, .str _ => by simp [Json.beq]
  | .null, .arr _ => by simp [Json.beq]
  | .null, .obj _ => by simp [Json.beq]
  | .bool _, .null => by simp [Json.beq]
  | .bool _, .num _ => by simp [Json.beq]
  | .bool _, .str _ => by simp [Json.beq]
  | .bool _, .arr _ => by simp [Json.beq]
  | .bool _, .obj _ => by simp [Json.beq]
  | .num _, .null => by simp [Json.beq]
  | .num _, .bool _ => by simp [Json.beq]
  | .num _, .str _ => by simp [Json.beq]
  | .num _, .arr _ => by simp [Json.beq]
  | .num _, .obj _ => by simp [Json.beq]
  | .str _, .null => by simp [Json.beq]
  | .str _, .bool _ => by simp [Json.beq]
  | .str _, .num _ => by simp [Json.beq]
  | .str _, .arr _ => by simp [Json.beq]
  | .str _, .obj _ => by simp [Json.beq]
  | .arr _, .null => by simp [Json.beq]
  | .arr _, .bool _ => by simp [Json.beq]
  | .arr _, .num _ => by simp [Json.beq]
  | .arr _, .str _ => by simp [Json.beq]
  | .arr _, .obj _ => by simp [Json.beq]
  | .obj _, .null => by simp [Json.beq]
  | .obj _, .bool _ => by simp [Json.beq]
  | .obj _, .num _ => by simp [Json.beq]
  | .obj _, .str _ => by simp [Json.beq]
  | .obj _, .arr _ => by simp [Json.beq]

theorem Json.beqArr_iff : ∀ xs ys : List Json, Json.beqArr xs ys = true ↔ xs = ys
  | [], [] => by simp [Json.beqArr]
  | x :: xs, y :: ys => by
    rw [Json.beqArr, Bool.and_eq_true, Json.beq_iff x y, Json.beqArr_iff xs ys]
    simp
  | [], _ :: _ => by simp [Json.beqArr]
  | _ :: _, [] => by simp [Json.beqArr]

theorem Json.beqObj_iff : ∀ xs ys : List (List Char × Json), Json.beqObj xs ys = true ↔ xs = ys
  | [], [] => by simp [Json.beqObj]
  | (k, v) :: xs, (l, w) :: ys => by
    rw [Json.beqObj, Bool.and_eq_true, Bool.and_eq_true, Json.beq_iff v w,
      Json.beqObj_iff xs ys]
    simp
  | [], _ :: _ => by simp [Json.beqObj]
  | _ :: _, [] => by simp [Json.beqObj]

end

instance : DecidableEq Json := fun a b =>
  if h : Json.beq a b = true then isTrue ((Json.beq_iff a b).mp h)
  else isFalse fun e => h ((Json.beq_iff a b).mpr e)

/-- Python dynamic errors that escape the scanner's
`except (KubectlError, json.JSONDecodeError)` handlers. -/
inductive PyErr where
  | attributeError : PyErr
  | typeError : PyErr
  | nameError : PyErr
  deriving DecidableEq

/-- Computations that may raise an uncaught Python exception. -/
abbrev Py (α : Type) := Except PyErr α

/-- Python truthiness of a parsed JSON value. -/
def Json.truthy : Json → Bool
  | .null => false
  | .bool b => b
  | .num n => decide (n ≠ 0)
  | .str s => !s.isEmpty
  | .arr xs => !xs.isEmpty
  | .obj kvs => !kvs.isEmpty

/-- Whether a JSON value is a Python dict. -/
def Json.isDict : Json → Bool
  | .obj _ => true
  | _ => false

/-- `d.get(k, default)` on a known dict entry list. -/
def dictGet (kvs : List (List Char × Json)) (k : PyStr) (dflt : Json) : Json :=
  (kvs.lookup k).getD dflt

/-- `x.get(k, default)` on an arbitrary value: `AttributeError` off dicts. -/
def pyGet (j : Json) (k : PyStr) (dflt : Json) : Py Json :=
  match j with
  | .obj kvs => .ok (dictGet kvs k dflt)
  | _ => .error .attributeError

/-- Python `for`-iteration over a value: lists yield their elements, strings
their characters, dicts their keys; anything else raises `TypeError`. -/
def jIterate (j : Json) : Py (List Json) :=
  match j with
  | .arr xs => .ok xs
  | .str s => .ok (s.map fun c => Json.str [c])
  | .obj kvs => .ok (kvs.map fun kv => Json.str kv.1)
  | _ => .error .typeError

/-- `return reason if isinstance(reason, str) else "Unknown"`. -/
def strOrUnknown (j : Json) : PyStr :=
  match j with
  | .str s => s
  | _ => pys "Unknown"

/-! ## Health scanner (`kfix/kubectl.py` lines 441-717).

The cluster data source is an oracle mapping each listing query issued with
`check=False` to either a raised `KubectlError` or modelled stdout: blank
(whitespace only), text rejected by `json.loads`, or parsed JSON.  The
pod/deployment scanning bodies are duplicated verbatim between
`scan_namespace` and `scan_all_namespaces` in the source; they are embedded
once and used by both. -/

/-- A listing query issued by the scanners. -/
inductive KQuery where
  | pods (ns : Json) : KQuery
  | deployments (ns : Json) : KQuery
  | services (ns : Json) : KQuery
  | endpoints (ns : Json) : KQuery
  | nodes : KQuery
  | namespaces : KQuery

/-- Modelled stdout of one query. -/
inductive KOut where
  | blank : KOut
  | malformed : KOut
  | json (j : Json) : KOut

/-- Result of `Kubectl._run(args, check=False)`. -/
inductive KRes where
  | raises : KRes
  | returns (out : KOut) : KRes

/-- The cluster data source. -/
def KubeOracle := KQuery → KRes

/-- One unhealthy-resource dict appended by the scanners
(`{"kind", "name", "namespace", "status", "reason"}`). -/
structure Finding where
  kind : PyStr
  name : Json
  nspace : Json
  status : Json
  reason : Json
  deriving DecidableEq

/-- Append-filter loop shared by the per-resource scanners: process the
items in listing order, appending a finding when one is produced; an
uncaught exception aborts the whole scan. -/
def scanItems (f : Json → Py (Option Finding)) : List Json → Py (List Finding)
  | [] => .ok []
  | x :: xs => do
    let r ← f x
    let rest ← scanItems f xs
    match r with
    | some v => pure (v :: rest)
    | none => pure rest

/-- The `waiting`/`terminated` checks of one `_pod_failure_reason` loop
iteration, on a container's dict-shaped `state`: a truthy `waiting` value
yields its `reason` (or `"Unknown"`), else a truthy `terminated` value
yields its `reason` (or `"Unknown"`); a truthy non-dict
`waiting`/`terminated` raises `AttributeError` at `.get`. -/
def podStateCheck (stKvs : List (List Char × Json)) : Py (Option PyStr) :=
  let waiting := dictGet stKvs (pys "waiting") (.obj [])
  if waiting.truthy then do
    let r ← pyGet waiting (pys "reason") (.str (pys "Unknown"))
    pure (some (strOrUnknown r))
  else
    let terminated := dictGet stKvs (pys "terminated") (.obj [])
    if terminated.truthy then do
      let r ← pyGet terminated (pys "reason") (.str (pys "Unknown"))
      pure (some (strOrUnknown r))
    else pure none

/-- One `_pod_failure_reason` loop iteration: non-dict entries and non-dict
states are skipped (`continue`), dict states go through the
`waiting`/`terminated` checks. -/
def podContainerVerdict (cs : Json) : Py (Option PyStr) :=
  match cs with
  | .obj csKvs =>
    match dictGet csKvs (pys "state") (.obj []) with
    | .obj stKvs => podStateCheck stKvs
    | _ => pure none
  | _ => pure none

/-- Loop of `_pod_failure_reason` over `status.containerStatuses`: return
at the first container producing a verdict, else fall through. -/
def podReasonLoop : List Json → Py (Option PyStr)
  | [] => .ok none
  | cs :: rest => do
    match ← podContainerVerdict cs with
    | some r => pure (some r)
    | none => podReasonLoop rest

/-- `_pod_failure_reason` from `kfix/kubectl.py`: a non-dict `status` gives
`"Unknown"`; a non-list `containerStatuses` is treated as `[]`; after the
container loop, `status.reason` (string-guarded) or `"Unknown"`. -/
def podFailureReason (pod : Json) : Py PyStr :=
  match pod with
  | .obj kvs =>
    match dictGet kvs (pys "status") (.obj []) with
    | .obj stKvs => do
      let csList :=
        match dictGet stKvs (pys "containerStatuses") (.arr []) with
        | .arr xs => xs
        | _ => []
      match ← podReasonLoop csList with
      | some r => pure r
      | none => pure (strOrUnknown (dictGet stKvs (pys "reason") (.str (pys "Unknown"))))
    | _ => .ok (pys "Unknown")
  | _ => .error .attributeError

/-- Per-item pod classification (`scan_namespace` / `scan_all_namespaces`):
unhealthy iff `status.phase` (default `"Unknown"`) is not `Running` or
`Succeeded`; name from `metadata.name` (default `"unknown"`); reason from
`_pod_failure_reason`. -/
def podScanItem (ns : Json) (item : Json) : Py (Option Finding) := do
  let status ← pyGet item (pys "status") (.obj [])
  let phase ← pyGet status (pys "phase") (.str (pys "Unknown"))
  if phase = .str (pys "Running") || phase = .str (pys "Succeeded") then
    pure none
  else do
    let metadata ← pyGet item (pys "metadata") (.obj [])
    let name ← pyGet metadata (pys "name") (.str (pys "unknown"))
    let reason ← podFailureReason item
    pure (some { kind := pys "pod", name := name, nspace := ns,
                 status := phase, reason := .str reason })

/-- Boolean lexicographic order on strings (Python `str < str`). -/
def strLtB : PyStr → PyStr → Bool
  | [], [] => false
  | [], _ :: _ => true
  | _ :: _, [] => false
  | a :: xs, b :: ys => if a < b then true else if b < a then false else strLtB xs ys

/-- Python `<` on parsed JSON scalars: numbers and booleans compare
numerically, strings lexicographically; any other combination raises
`TypeError`. -/
def pyLt (a b : Json) : Py Bool :=
  match a, b with
  | .num x, .num y => .ok (decide (x < y))
  | .num x, .bool y => .ok (decide (x < if y then 1 else 0))
  | .bool x, .num y => .ok (decide ((if x then (1 : Int) else 0) < y))
  | .bool x, .bool y => .ok (decide ((if x then (1 : Int) else 0) < if y then 1 else 0))
  | .str x, .str y => .ok (strLtB x y)
  | _, _ => .error .typeError

/-- Python `str()` of the scalar values that can reach the deployment
status f-string. -/
def pyFmt (j : Json) : PyStr :=
  match j with
  | .num n => (toString n).data
  | .bool b => if b then pys "True" else pys "False"
  | .str s => s
  | .null => pys "None"
  | _ => pys "?"

/-- Per-item deployment classification: `desired = spec.replicas` (default
0), `available = status.availableReplicas` (default 0, falsy coerced to 0 by
`or 0`); unhealthy iff `available < desired`, with status rendered as
`f"{available}/{desired} available"` and the fixed reason
`"Insufficient replicas"`. -/
def depScanItem (ns : Json) (item : Json) : Py (Option Finding) := do
  let status ← pyGet item (pys "status") (.obj [])
  let spec ← pyGet item (pys "spec") (.obj [])
  let desired ← pyGet spec (pys "replicas") (.num 0)
  let availRaw ← pyGet status (pys "availableReplicas") (.num 0)
  let available := if availRaw.truthy then availRaw else .num 0
  let lt ← pyLt available desired
  if lt then do
    let metadata ← pyGet item (pys "metadata") (.obj [])
    let name ← pyGet metadata (pys "name") (.str (pys "unknown"))
    pure (some { kind := pys "deployment", name := name, nspace := ns,
                 status := .str (pyFmt available ++ pys "/" ++ pyFmt desired ++ pys " available"),
                 reason := .str (pys "Insufficient replicas") })
  else pure none

/-- `endpoints_by_name[key] = value`: Python dict assignment (overwrite). -/
def assocSet (m : List (PyStr × Json)) (k : PyStr) (v : Json) : List (PyStr × Json) :=
  match m with
  | [] => [(k, v)]
  | (k2, v2) :: rest => if k2 == k then (k2, v) :: rest else (k2, v2) :: assocSet rest k v

/-- Build `endpoints_by_name` from the endpoints items: keep entries whose
`metadata.name` is a non-empty string. -/
def epFold (acc : List (PyStr × Json)) : List Json → Py (List (PyStr × Json))
  | [] => .ok acc
  | ep :: rest => do
    let md ← pyGet ep (pys "metadata") (.obj [])
    let name ← pyGet md (pys "name") .null
    match name with
    | .str s => if s.isEmpty then epFold acc rest else epFold (assocSet acc s ep) rest
    | _ => epFold acc rest

/-- `has_ready_addresses` loop over `subsets`. -/
def hasReadyAddr : List Json → Py Bool
  | [] => .ok false
  | subset :: rest => do
    let addrRaw ← pyGet subset (pys "addresses") .null
    let addresses := if addrRaw.truthy then addrRaw else .arr []
    if addresses.truthy then pure true else hasReadyAddr rest

/-- Per-service classification inside `_scan_services`: skip `ExternalName`
services and services without a truthy selector; unhealthy iff no subset of
the matching endpoints object has a truthy `addresses` list. -/
def svcScanItem (ns : Json) (byName : List (PyStr × Json)) (service : Json) :
    Py (Option Finding) := do
  let metadata ← pyGet service (pys "metadata") (.obj [])
  let spec ← pyGet service (pys "spec") (.obj [])
  let nameRaw ← pyGet metadata (pys "name") (.str (pys "unknown"))
  let name := match nameRaw with | .str s => s | _ => pys "unknown"
  let serviceType ← pyGet spec (pys "type") (.str (pys "ClusterIP"))
  if serviceType = .str (pys "ExternalName") then pure none
  else do
    let selRaw ← pyGet spec (pys "selector") .null
    let selector := if selRaw.truthy then selRaw else .obj []
    if !selector.truthy then pure none
    else do
      let endpointObj := (byName.lookup name).getD (.obj [])
      let subsRaw ← pyGet endpointObj (pys "subsets") .null
      let subsets := if subsRaw.truthy then subsRaw else .arr []
      let subsList ← jIterate subsets
      let ready ← hasReadyAddr subsList
      if ready then pure none
      else pure (some { kind := pys "service", name := .str name, nspace := ns,
                        status := .str (pys "NoReadyEndpoints"),
                        reason := .str (pys "No ready endpoints") })

/-- The pod-scanning block of `scan_namespace` / `scan_all_namespaces`:
`KubectlError` and `json.JSONDecodeError` (and blank stdout) contribute zero
findings; other exceptions propagate. -/
def podSection (o : KubeOracle) (ns : Json) : Py (List Finding) :=
  match o (.pods ns) with
  | .raises => .ok []
  | .returns .blank => .ok []
  | .returns .malformed => .ok []
  | .returns (.json j) => do
    let itemsJ ← pyGet j (pys "items") (.arr [])
    let items ← jIterate itemsJ
    scanItems (podScanItem ns) items

/-- The deployment-scanning block of `scan_namespace` / `scan_all_namespaces`. -/
def depSection (o : KubeOracle) (ns : Json) : Py (List Finding) :=
  match o (.deployments ns) with
  | .raises => .ok []
  | .returns .blank => .ok []
  | .returns .malformed => .ok []
  | .returns (.json j) => do
    let itemsJ ← pyGet j (pys "items") (.arr [])
    let items ← jIterate itemsJ
    scanItems (depScanItem ns) items

/-- `_scan_services`: both queries sit in one `try` block; a raised
`KubectlError` or a `json.loads` failure on either response, or blank
services stdout, gives zero findings; blank endpoints stdout acts as
`{"items": []}`. -/
def svcSection (o : KubeOracle) (ns : Json) : Py (List Finding) :=
  match o (.services ns), o (.endpoints ns) with
  | .raises, _ => .ok []
  | _, .raises => .ok []
  | .returns .blank, _ => .ok []
  | .returns .malformed, _ => .ok []
  | .returns (.json _), .returns .malformed => .ok []
  | .returns (.json sj), .returns eOut => do
    let ej := match eOut with
      | .json e => e
      | _ => .obj [(pys "items", .arr [])]
    let eItemsJ ← pyGet ej (pys "items") (.arr [])
    let eItems ← jIterate eItemsJ
    let byName ← epFold [] eItems
    let sItemsJ ← pyGet sj (pys "items") (.arr [])
    let sItems ← jIterate sItemsJ
    scanItems (svcScanItem ns byName) sItems

/-- Condition-loop body of `_scan_nodes`: each condition of type `Ready`
overwrites `(ready, reason)`; the last such condition wins. -/
def nodeCondStep (acc : Bool × Json) (cond : Json) : Py (Bool × Json) := do
  let t ← pyGet cond (pys "type") .null
  if t = .str (pys "Ready") then do
    let st ← pyGet cond (pys "status") .null
    let rs ← pyGet cond (pys "reason") (.str (pys "Unknown"))
    pure (st = .str (pys "True"), rs)
  else pure acc

/-- Fold of `nodeCondStep` over the conditions, in listing order. -/
def nodeCondLoop (acc : Bool × Json) : List Json → Py (Bool × Json)
  | [] => .ok acc
  | c :: rest => do
    let acc2 ← nodeCondStep acc c
    nodeCondLoop acc2 rest

/-- Per-item node classification of `_scan_nodes`. -/
def nodeScanItem (item : Json) : Py (Option Finding) := do
  let metadata ← pyGet item (pys "metadata") (.obj [])
  let name ← pyGet metadata (pys "name") (.str (pys "unknown"))
  let status ← pyGet item (pys "status") (.obj [])
  let condsJ ← pyGet status (pys "conditions") (.arr [])
  let conds ← jIterate condsJ
  let rr ← nodeCondLoop (false, Json.str (pys "Unknown")) conds
  if rr.1 then pure none
  else pure (some { kind := pys "node", name := name, nspace := .str [],
                    status := .str (pys "NotReady"), reason := rr.2 })

/-- `_scan_nodes`: one cluster-scoped query. -/
def nodeSection (o : KubeOracle) : Py (List Finding) :=
  match o .nodes with
  | .raises => .ok []
  | .returns .blank => .ok []
  | .returns .malformed => .ok []
  | .returns (.json j) => do
    let itemsJ ← pyGet j (pys "items") (.arr [])
    let items ← jIterate itemsJ
    scanItems nodeScanItem items

/-- `scan_namespace` from `kfix/kubectl.py`: pods, then deployments, then
services, then nodes. -/
def scanNamespace (o : KubeOracle) (ns : Json) : Py (List Finding) := do
  let ps ← podSection o ns
  let ds ← depSection o ns
  let ss ← svcSection o ns
  let nds ← nodeSection o
  pure (ps ++ ds ++ ss ++ nds)

/-- Namespace enumeration of `scan_all_namespaces`.  A raised `KubectlError`
or a `json.loads` failure is caught and falls back to `["default"]`; blank
stdout (query succeeded, nothing printed) skips the assignment entirely and
leaves the local variable `namespaces` unbound, modelled as `none`. -/
def nsEnumerate (o : KubeOracle) : Py (Option (List Json)) :=
  match o .namespaces with
  | .raises => .ok (some [Json.str (pys "default")])
  | .returns .blank => .ok none
  | .returns .malformed => .ok (some [Json.str (pys "default")])
  | .returns (.json j) => do
    let itemsJ ← pyGet j (pys "items") (.arr [])
    let items ← jIterate itemsJ
    let names ← items.mapM fun item => do
      let md ← pyGet item (pys "metadata") (.obj [])
      pyGet md (pys "name") (.str [])
    pure (some names)

/-- Per-namespace loop of `scan_all_namespaces`: pods, then services
(`_scan_services`), then deployments, for each namespace in listing order. -/
def scanAllLoop (o : KubeOracle) : List Json → Py (List Finding)
  | [] => .ok []
  | ns :: rest => do
    let ps ← podSection o ns
    let ss ← svcSection o ns
    let ds ← depSection o ns
    let more ← scanAllLoop o rest
    pure (ps ++ ss ++ ds ++ more)

/-- `scan_all_namespaces` from `kfix/kubectl.py`: enumerate namespaces, run
the per-namespace loop, then one cluster-scoped node scan.  When the
namespace listing succeeded with blank stdout, the Python local
`namespaces` was never assigned and the `for ns in namespaces` line raises
`UnboundLocalError` (a `NameError`). -/
def scanAllNamespaces (o : KubeOracle) : Py (List Finding) := do
  match ← nsEnumerate o with
  | none => .error .nameError
  | some nss => do
    let perNs ← scanAllLoop o nss
    let nds ← nodeSection o
    pure (perNs ++ nds)

/-! ## Concrete scanner inputs for the C2 / C4 / C5 / C6 verdicts. -/

/-- Shorthand for JSON string literals. -/
def jstr (s : String) : Json := .str (pys s)

/-- An empty listing: `{"items": []}`. -/
def emptyItems : Json := .obj [(pys "items", .arr [])]

/-- A node condition of type `Ready` with status `True`. -/
def readyTrueCond : Json :=
  .obj [(pys "type", jstr "Ready"), (pys "status", jstr "True"),
        (pys "reason", jstr "KubeletReady")]

/-- A node condition of type `Ready` with status `False`. -/
def readyFalseCond : Json :=
  .obj [(pys "type", jstr "Ready"), (pys "status", jstr "False"),
        (pys "reason", jstr "KubeletNotReady")]

/-- A node whose conditions list contains a `Ready/True` condition followed
by a `Ready/False` condition. -/
def cNodeItem : Json := .obj [
  (pys "metadata", .obj [(pys "name", jstr "node-1")]),
  (pys "status", .obj [(pys "conditions", .arr [readyTrueCond, readyFalseCond])])]

/-- A failed pod whose only container has a non-empty `waiting` state
without a `reason` field, and a `terminated` state with reason
`"OOMKilled"`. -/
def cPodItem : Json := .obj [
  (pys "metadata", .obj [(pys "name", jstr "p")]),
  (pys "status", .obj [
    (pys "phase", jstr "Failed"),
    (pys "containerStatuses", .arr [
      .obj [(pys "state", .obj [
        (pys "waiting", .obj [(pys "startedAt", jstr "t")]),
        (pys "terminated", .obj [(pys "reason", jstr "OOMKilled")])])]])])]

/-- The spec's scenario pod: `Pending` with `waiting.reason ==
"ImagePullBackOff"`. -/
def brokenPodItem : Json := .obj [
  (pys "metadata", .obj [(pys "name", jstr "broken-pod")]),
  (pys "status", .obj [
    (pys "phase", jstr "Pending"),
    (pys "containerStatuses", .arr [
      .obj [(pys "state", .obj [
        (pys "waiting", .obj [(pys "reason", jstr "ImagePullBackOff")])])]])])]

/-- A namespaces listing containing the single namespace `default`. -/
def nsListJ : Json :=
  .obj [(pys "items", .arr [.obj [(pys "metadata", .obj [(pys "name", jstr "default")])]])]

/-- A deployments listing with one deployment at 1/3 available replicas. -/
def depListJ : Json := .obj [(pys "items", .arr [.obj [
  (pys "metadata", .obj [(pys "name", jstr "bad-deploy")]),
  (pys "spec", .obj [(pys "replicas", .num 3)]),
  (pys "status", .obj [(pys "availableReplicas", .num 1)])]])]

/-- A services listing with one selector-bearing `ClusterIP` service. -/
def svcListJ : Json := .obj [(pys "items", .arr [.obj [
  (pys "metadata", .obj [(pys "name", jstr "bad-svc")]),
  (pys "spec", .obj [(pys "selector", .obj [(pys "app", jstr "x")])])]])]

/-- Oracle for the C6 counterexample: one namespace holding one unhealthy
service and one unhealthy deployment; empty pods/endpoints/nodes listings. -/
def c6Oracle : KubeOracle := fun q =>
  match q with
  | .namespaces => .returns (.json nsListJ)
  | .pods _ => .returns (.json emptyItems)
  | .deployments _ => .returns (.json depListJ)
  | .services _ => .returns (.json svcListJ)
  | .endpoints _ => .returns (.json emptyItems)
  | .nodes => .returns (.json emptyItems)

/-- Claim C2 (code bug): when every cluster query succeeds with blank
stdout — in particular the namespace enumeration, a query that succeeds
with empty output — `scan_all_namespaces` does not fall back to
`["default"]` and does not return a list: the local variable `namespaces`
is never assigned and the function raises `UnboundLocalError` at
`for ns in namespaces`. -/
theorem c2_blank_namespaces_crash :
    scanAllNamespaces (fun _ => KRes.returns KOut.blank) =
      Except.error PyErr.nameError := rfl

/-- The node-health rule exactly as claim C4 states it, modelled from the
spec: some condition of type `Ready` has status `"True"`. -/
def claimC4HasReadyTrue (conds : List Json) : Bool :=
  conds.any fun c =>
    match c with
    | .obj kvs => decide (dictGet kvs (pys "type") .null = jstr "Ready")
        && decide (dictGet kvs (pys "status") .null = jstr "True")
    | _ => false

/-- Counterexample to claim C4: this node has a condition of type `Ready`
with status `"True"`, so by the claim it is healthy and must not be
reported — yet `_scan_nodes` reports it unhealthy (`NotReady`,
`KubeletNotReady`) because the loop lets the last `Ready` condition win. -/
theorem c4_counterexample :
    claimC4HasReadyTrue [readyTrueCond, readyFalseCond] = true ∧
    nodeScanItem cNodeItem = Except.ok (some
      { kind := pys "node", name := jstr "node-1", nspace := .str [],
        status := jstr "NotReady", reason := jstr "KubeletNotReady" }) :=
  ⟨by decide, rfl⟩

/-- Reason lookup as claim C5 states it, modelled from the spec: the
`reason` entry of the given container state, when it is present (a
string). -/
def claimStateReason (cs : Json) (key : PyStr) : Option PyStr :=
  match cs with
  | .obj kvs =>
    match dictGet kvs (pys "state") .null with
    | .obj st =>
      match dictGet st key .null with
      | .obj w =>
        match w.lookup (pys "reason") with
        | some (.str s) => some s
        | _ => none
      | _ => none
    | _ => none
  | _ => none

/-- The pod-reason derivation exactly as claim C5 states it, modelled from
the spec: scan `status.containerStatuses` in array order, returning the
first container's `waiting.reason` if present, else its
`terminated.reason` if present; after the scan, `status.reason`, else the
literal `"Unknown"`. -/
def claimPodReason (pod : Json) : PyStr :=
  match pod with
  | .obj kvs =>
    match dictGet kvs (pys "status") .null with
    | .obj st =>
      let css := match dictGet st (pys "containerStatuses") .null with
        | .arr xs => xs
        | _ => []
      match css.findSome? (fun cs =>
          (claimStateReason cs (pys "waiting")).orElse
            (fun _ => claimStateReason cs (pys "terminated"))) with
      | some r => r
      | none =>
        match st.lookup (pys "reason") with
        | some (.str s) => s
        | _ => pys "Unknown"
    | _ => pys "Unknown"
  | _ => pys "Unknown"

/-- Counterexample to claim C5: this pod's only container has no
`waiting.reason`, so by the claim the reported reason is its
`terminated.reason` `"OOMKilled"` — yet `_pod_failure_reason` returns
`"Unknown"`, because the code returns as soon as `waiting` is non-empty
(`if waiting:`) without consulting `terminated`. -/
theorem c5_counterexample :
    claimPodReason cPodItem = pys "OOMKilled" ∧
    podFailureReason cPodItem = Except.ok (pys "Unknown") :=
  ⟨by decide, rfl⟩

/-- Counterexample to claim C6: with one namespace holding one unhealthy
service and one unhealthy deployment, `scan_all_namespaces` returns the
service finding before the deployment finding, contradicting the claimed
pods-deployments-services order; `scan_namespace` on the same data returns
the deployment first. -/
theorem c6_counterexample :
    scanAllNamespaces c6Oracle = Except.ok [
      { kind := pys "service", name := jstr "bad-svc", nspace := jstr "default",
        status := jstr "NoReadyEndpoints", reason := jstr "No ready endpoints" },
      { kind := pys "deployment", name := jstr "bad-deploy", nspace := jstr "default",
        status := jstr "1/3 available", reason := jstr "Insufficient replicas" }] ∧
    scanNamespace c6Oracle (jstr "default") = Except.ok [
      { kind := pys "deployment", name := jstr "bad-deploy", nspace := jstr "default",
        status := jstr "1/3 available", reason := jstr "Insufficient replicas" },
      { kind := pys "service", name := jstr "bad-svc", nspace := jstr "default",
        status := jstr "NoReadyEndpoints", reason := jstr "No ready endpoints" }] :=
  ⟨rfl, rfl⟩

/-- Bind of a successful `Py` computation. -/
@[simp] theorem pyBind_ok {α β : Type} (a : α) (f : α → Py β) :
    (Except.ok a : Py α) >>= f = f a := rfl

/-- Bind of a raising `Py` computation. -/
@[simp] theorem pyBind_error {α β : Type} (e : PyErr) (f : α → Py β) :
    (Except.error e : Py α) >>= f = Except.error e := rfl

/-- Whether a condition entry is a dict whose `type` is `Ready`. -/
def isReadyCond (c : Json) : Bool :=
  match c with
  | .obj kvs => decide (dictGet kvs (pys "type") .null = jstr "Ready")
  | _ => false

/-- Whether a condition's `status` is the string `"True"`. -/
def condStatusTrue (c : Json) : Bool :=
  match c with
  | .obj kvs => decide (dictGet kvs (pys "status") .null = jstr "True")
  | _ => false

/-- A condition's `reason` field, or `"Unknown"` when absent. -/
def condReason (c : Json) : Json :=
  match c with
  | .obj kvs => dictGet kvs (pys "reason") (.str (pys "Unknown"))
  | _ => .str (pys "Unknown")

/-- The last condition of type `Ready` in array order, if any. -/
def lastReadyCond (conds : List Json) : Option Json :=
  conds.foldl (fun acc c => if isReadyCond c then some c else acc) none

theorem lastReady_init (rest : List Json) :
    ∀ a : Option Json, rest.foldl (fun acc c => if isReadyCond c then some c else acc) a =
      match rest.foldl (fun acc c => if isReadyCond c then some c else acc) none with
      | none => a
      | some d => some d := by
  induction rest with
  | nil => intro a; rfl
  | cons c rest ih =>
    intro a
    simp only [List.foldl_cons]
    by_cases hr : isReadyCond c = true
    · rw [if_pos hr, if_pos hr]
      rcases h2 : rest.foldl (fun acc c => if isReadyCond c then some c else acc) none with _ | d <;>
        rw [ih (some c), h2]
    · rw [if_neg hr, if_neg hr]
      exact ih a

/-- One `nodeCondStep` on a dict condition, expressed with the pure
last-Ready helpers. -/
theorem nodeCondStep_obj (acc : Bool × Json) (kvs : List (List Char × Json)) :
    nodeCondStep acc (.obj kvs) =
      .ok (if isReadyCond (.obj kvs) = true
        then (condStatusTrue (.obj kvs), condReason (.obj kvs)) else acc) := by
  rw [nodeCondStep]
  simp only [pyGet, pyBind_ok]
  by_cases ht : dictGet kvs (pys "type") .null = Json.str (pys "Ready")
  · rw [if_pos ht, if_pos (by simp [isReadyCond, jstr, ht])]
    rfl
  · rw [if_neg ht, if_neg (by simp [isReadyCond, jstr, ht])]
    rfl

theorem nodeCondLoop_last (conds : List Json) (hdict : ∀ c ∈ conds, c.isDict = true) :
    ∀ acc : Bool × Json, nodeCondLoop acc conds =
      .ok (match lastReadyCond conds with
        | none => acc
        | some c => (condStatusTrue c, condReason c)) := by
  induction conds with
  | nil => intro acc; rfl
  | cons c rest ih =>
    intro acc
    have hcd : c.isDict = true := hdict c (List.mem_cons_self c rest)
    have hrestd : ∀ x ∈ rest, x.isDict = true := fun x hx => hdict x (List.mem_cons_of_mem c hx)
    rcases c with _ | _ | _ | _ | _ | kvs
    · exact absurd hcd (by simp [Json.isDict])
    · exact absurd hcd (by simp [Json.isDict])
    · exact absurd hcd (by simp [Json.isDict])
    · exact absurd hcd (by simp [Json.isDict])
    · exact absurd hcd (by simp [Json.isDict])
    rw [nodeCondLoop, nodeCondStep_obj]
    simp only [pyBind_ok]
    by_cases hr : isReadyCond (.obj kvs) = true
    · rw [if_pos hr]
      rw [ih hrestd]
      have hlast : lastReadyCond (Json.obj kvs :: rest) =
          match lastReadyCond rest with
          | none => some (Json.obj kvs)
          | some d => some d := by
        rw [lastReadyCond, List.foldl_cons, if_pos hr]
        exact lastReady_init rest (some (Json.obj kvs))
      rw [hlast]
      rcases lastReadyCond rest with _ | d <;> rfl
    · rw [if_neg hr]
      rw [ih hrestd]
      have hlast : lastReadyCond (Json.obj kvs :: rest) = lastReadyCond rest := by
        rw [lastReadyCond, List.foldl_cons, if_neg hr]
        rfl
      rw [hlast]

/-- The node finding built by `_scan_nodes` for a given name and reason. -/
def nodeFindingOf (name reason : Json) : Finding :=
  { kind := pys "node", name := name, nspace := .str [],
    status := jstr "NotReady", reason := reason }

/-- `x.get` on a dict never raises. -/
@[simp] theorem pyGet_obj (kvs : List (List Char × Json)) (k : PyStr) (d : Json) :
    pyGet (.obj kvs) k d = .ok (dictGet kvs k d) := rfl

/-- Claim C4, amended: for a node object with dict-shaped conditions, the
scanner reports the node unhealthy iff the LAST condition of type `Ready`
in array order does not have status `"True"` (or no `Ready` condition
exists); the reason is that last `Ready` condition's `reason` field, or
`"Unknown"` when it is absent or when no `Ready` condition exists. -/
theorem c4_amended_last_ready (mdKvs stKvs : List (List Char × Json)) (conds : List Json)
    (hconds : dictGet stKvs (pys "conditions") (.arr []) = .arr conds)
    (hdict : ∀ c ∈ conds, c.isDict = true) :
    nodeScanItem (.obj [(pys "metadata", .obj mdKvs), (pys "status", .obj stKvs)]) =
      .ok (match lastReadyCond conds with
        | none => some (nodeFindingOf (dictGet mdKvs (pys "name") (.str (pys "unknown")))
            (.str (pys "Unknown")))
        | some c => if condStatusTrue c = true then none
            else some (nodeFindingOf (dictGet mdKvs (pys "name") (.str (pys "unknown")))
              (condReason c))) := by
  have h1 : pyGet (Json.obj [(pys "metadata", .obj mdKvs), (pys "status", .obj stKvs)])
      (pys "metadata") (.obj []) = .ok (.obj mdKvs) := rfl
  have h2 : pyGet (Json.obj [(pys "metadata", .obj mdKvs), (pys "status", .obj stKvs)])
      (pys "status") (.obj []) = .ok (.obj stKvs) := rfl
  rw [nodeScanItem, h1, pyBind_ok, pyGet_obj, pyBind_ok, h2, pyBind_ok, pyGet_obj,
    hconds, pyBind_ok]
  have hiter : jIterate (.arr conds) = .ok conds := rfl
  rw [hiter, pyBind_ok, nodeCondLoop_last conds hdict, pyBind_ok]
  rcases lastReadyCond conds with _ | c
  · rfl
  · by_cases hs : condStatusTrue c = true
    · rw [if_pos hs]
      simp only [hs]
      rfl
    · rw [if_neg hs]
      simp only [Bool.not_eq_true] at hs
      simp only [hs]
      rfl

/-- Witness for the amended C4 at a node whose single `Ready` condition has
status `False`. -/
theorem c4_amended_last_ready_witness :
    nodeScanItem (.obj [(pys "metadata", .obj [(pys "name", jstr "node-1")]),
      (pys "status", .obj [(pys "conditions", .arr [readyFalseCond])])]) =
      .ok (some (nodeFindingOf (jstr "node-1") (jstr "KubeletNotReady"))) := by
  have h := c4_amended_last_ready [(pys "name", jstr "node-1")]
    [(pys "conditions", .arr [readyFalseCond])] [readyFalseCond] rfl (by decide)
  exact h.trans (by rfl)

/-- A container state entry's `reason` field as a string, or `"Unknown"`. -/
def reasonOrUnknown (w : Json) : PyStr :=
  match w with
  | .obj kvs => strOrUnknown (dictGet kvs (pys "reason") (.str (pys "Unknown")))
  | _ => pys "Unknown"

/-- Amended per-state reason rule: a truthy `waiting` yields waiting's
`reason` (or `"Unknown"` when absent or not a string); otherwise a truthy
`terminated` yields its `reason` likewise; otherwise nothing. -/
def amendedStateReason (stKvs : List (List Char × Json)) : Option PyStr :=
  let w := dictGet stKvs (pys "waiting") (.obj [])
  if w.truthy then some (reasonOrUnknown w)
  else
    let t := dictGet stKvs (pys "terminated") (.obj [])
    if t.truthy then some (reasonOrUnknown t) else none

/-- Amended per-container reason rule: non-dict containers and non-dict
states contribute nothing; dict states follow `amendedStateReason`. -/
def amendedContainerReason (cs : Json) : Option PyStr :=
  match cs with
  | .obj kvs =>
    match dictGet kvs (pys "state") (.obj []) with
    | .obj st => amendedStateReason st
    | _ => none
  | _ => none

/-- Shape condition on a dict-shaped container state under which the
`waiting`/`terminated` checks cannot raise. -/
def stateShapeOk (stKvs : List (List Char × Json)) : Prop :=
  ((dictGet stKvs (pys "waiting") (.obj [])).truthy = true →
    (dictGet stKvs (pys "waiting") (.obj [])).isDict = true) ∧
  ((dictGet stKvs (pys "terminated") (.obj [])).truthy = true →
    (dictGet stKvs (pys "terminated") (.obj [])).isDict = true)

/-- Shape condition under which `_pod_failure_reason` cannot raise. -/
def stateWellShaped (cs : Json) : Prop :=
  match cs with
  | .obj kvs =>
    match dictGet kvs (pys "state") (.obj []) with
    | .obj st => stateShapeOk st
    | _ => True
  | _ => True

theorem podStateCheck_ok (stKvs : List (List Char × Json)) (hs : stateShapeOk stKvs) :
    podStateCheck stKvs = .ok (amendedStateReason stKvs) := by
  rw [podStateCheck, amendedStateReason]
  by_cases hw : (dictGet stKvs (pys "waiting") (.obj [])).truthy = true
  · rw [if_pos hw, if_pos hw]
    have hwd := hs.1 hw
    rcases hwv : dictGet stKvs (pys "waiting") (.obj []) with _ | _ | _ | _ | _ | wk <;>
      rw [hwv] at hwd
    · exact absurd hwd (by simp [Json.isDict])
    · exact absurd hwd (by simp [Json.isDict])
    · exact absurd hwd (by simp [Json.isDict])
    · exact absurd hwd (by simp [Json.isDict])
    · exact absurd hwd (by simp [Json.isDict])
    rfl
  · rw [if_neg hw, if_neg hw]
    by_cases ht : (dictGet stKvs (pys "terminated") (.obj [])).truthy = true
    · rw [if_pos ht, if_pos ht]
      have htd := hs.2 ht
      rcases htv : dictGet stKvs (pys "terminated") (.obj []) with _ | _ | _ | _ | _ | tk <;>
        rw [htv] at htd
      · exact absurd htd (by simp [Json.isDict])
      · exact absurd htd (by simp [Json.isDict])
      · exact absurd htd (by simp [Json.isDict])
      · exact absurd htd (by simp [Json.isDict])
      · exact absurd htd (by simp [Json.isDict])
      rfl
    · rw [if_neg ht, if_neg ht]
      rfl

theorem podContainerVerdict_ok (cs : Json) (hh : stateWellShaped cs) :
    podContainerVerdict cs = .ok (amendedContainerReason cs) := by
  rcases cs with _ | _ | _ | _ | _ | kvs
  · rfl
  · rfl
  · rfl
  · rfl
  · rfl
  unfold stateWellShaped at hh
  rw [show podContainerVerdict (Json.obj kvs) =
      (match dictGet kvs (pys "state") (.obj []) with
        | Json.obj st => podStateCheck st
        | _ => pure none) from rfl,
    show amendedContainerReason (Json.obj kvs) =
      (match dictGet kvs (pys "state") (.obj []) with
        | Json.obj st => amendedStateReason st
        | _ => none) from rfl]
  cases hst : dictGet kvs (pys "state") (.obj [])
  case null => rfl
  case bool => rfl
  case num => rfl
  case str => rfl
  case arr => rfl
  case obj st =>
    have hh2 : (match dictGet kvs (pys "state") (.obj []) with
        | Json.obj st => stateShapeOk st
        | _ => True) := hh
    rw [hst] at hh2
    exact podStateCheck_ok st hh2

/-- The container loop of `_pod_failure_reason` computes exactly the first
amended per-container verdict, on shape-safe input. -/
theorem podReasonLoop_findSome (css : List Json)
    (hshape : ∀ cs ∈ css, stateWellShaped cs) :
    podReasonLoop css = .ok (css.findSome? amendedContainerReason) := by
  induction css with
  | nil => rfl
  | cons cs rest ih =>
    have hrest : ∀ x ∈ rest, stateWellShaped x :=
      fun x hx => hshape x (List.mem_cons_of_mem cs hx)
    rw [podReasonLoop, podContainerVerdict_ok cs (hshape cs (List.mem_cons_self cs rest)),
      pyBind_ok, List.findSome?_cons]
    rcases amendedContainerReason cs with _ | r
    · exact ih hrest
    · rfl

/-- The pod finding built by the scanners for given name, namespace,
phase and reason. -/
def podFindingOf (name nsv phase reason : Json) : Finding :=
  { kind := pys "pod", name := name, nspace := nsv, status := phase, reason := reason }

/-- Claim C5, amended: for a pod object with shape-safe container states,
the scanner reports the pod unhealthy iff `status.phase` (default
`"Unknown"`) is not in `{Running, Succeeded}`; the reported reason is, per
container in array order: the first container with a truthy `state.waiting`
gives waiting's `reason` (or `"Unknown"` if that field is absent — even if
a `terminated.reason` exists), else a truthy `state.terminated` gives its
`reason` (or `"Unknown"`); if no container decides, `status.reason` when it
is a string, else the literal `"Unknown"`. -/
theorem c5_amended_pod_rule (ns : Json) (mdKvs stKvs : List (List Char × Json))
    (css : List Json)
    (hcss : dictGet stKvs (pys "containerStatuses") (.arr []) = .arr css)
    (hshape : ∀ cs ∈ css, stateWellShaped cs) :
    podScanItem ns (.obj [(pys "metadata", .obj mdKvs), (pys "status", .obj stKvs)]) =
      .ok (if dictGet stKvs (pys "phase") (.str (pys "Unknown")) = jstr "Running"
            || dictGet stKvs (pys "phase") (.str (pys "Unknown")) = jstr "Succeeded"
          then none
          else some (podFindingOf
            (dictGet mdKvs (pys "name") (.str (pys "unknown"))) ns
            (dictGet stKvs (pys "phase") (.str (pys "Unknown")))
            (.str ((css.findSome? amendedContainerReason).getD
              (strOrUnknown (dictGet stKvs (pys "reason") (.str (pys "Unknown")))))))) := by
  have hpf : podFailureReason
      (.obj [(pys "metadata", .obj mdKvs), (pys "status", .obj stKvs)]) =
      .ok ((css.findSome? amendedContainerReason).getD
        (strOrUnknown (dictGet stKvs (pys "reason") (.str (pys "Unknown"))))) := by
    rw [show podFailureReason
        (.obj [(pys "metadata", .obj mdKvs), (pys "status", .obj stKvs)]) = (do
          let csList := match dictGet stKvs (pys "containerStatuses") (.arr []) with
            | Json.arr xs => xs
            | _ => []
          match ← podReasonLoop csList with
          | some r => pure r
          | none => pure (strOrUnknown (dictGet stKvs (pys "reason")
              (.str (pys "Unknown"))))) from rfl]
    rw [hcss]
    rw [show (match Json.arr css with | Json.arr xs => xs | _ => ([] : List Json)) = css
      from rfl]
    simp only [podReasonLoop_findSome css hshape, pyBind_ok]
    rcases css.findSome? amendedContainerReason with _ | r
    · rfl
    · rfl
  have h1 : pyGet (Json.obj [(pys "metadata", .obj mdKvs), (pys "status", .obj stKvs)])
      (pys "status") (.obj []) = .ok (.obj stKvs) := rfl
  have h2 : pyGet (Json.obj [(pys "metadata", .obj mdKvs), (pys "status", .obj stKvs)])
      (pys "metadata") (.obj []) = .ok (.obj mdKvs) := rfl
  rw [podScanItem, h1, pyBind_ok, pyGet_obj, pyBind_ok]
  by_cases hph : (dictGet stKvs (pys "phase") (.str (pys "Unknown")) = jstr "Running"
      || dictGet stKvs (pys "phase") (.str (pys "Unknown")) = jstr "Succeeded") = true
  · rw [if_pos hph]
    rw [if_pos (by simpa [jstr] using hph)]
    rfl
  · rw [if_neg hph]
    rw [if_neg (by simpa [jstr] using hph)]
    rw [h2, pyBind_ok, pyGet_obj, pyBind_ok, hpf, pyBind_ok]
    rfl

/-- Witness for the amended C5 at the spec's scenario pod: `Pending` with
`waiting.reason == "ImagePullBackOff"` yields exactly that reason. -/
theorem c5_amended_pod_rule_witness :
    podScanItem (jstr "default") brokenPodItem =
      .ok (some (podFindingOf (jstr "broken-pod") (jstr "default") (jstr "Pending")
        (jstr "ImagePullBackOff"))) := by
  have h := c5_amended_pod_rule (jstr "default") [(pys "name", jstr "broken-pod")]
    [(pys "phase", jstr "Pending"),
     (pys "containerStatuses", .arr [Json.obj [(pys "state", .obj [(pys "waiting",
        .obj [(pys "reason", jstr "ImagePullBackOff")])])]])]
    [Json.obj [(pys "state", .obj [(pys "waiting",
        .obj [(pys "reason", jstr "ImagePullBackOff")])])]]
    rfl
    (by
      intro cs hcs
      rw [List.mem_singleton] at hcs
      subst hcs
      exact ⟨fun _ => rfl, fun _ => rfl⟩)
  exact h.trans (by rfl)

/-- The per-namespace loop of `scan_all_namespaces` concatenates, for each
namespace in listing order, its pod findings, then its service findings,
then its deployment findings. -/
theorem scanAllLoop_ok (o : KubeOracle) (nss : List Json)
    (f : Json → List Finding × List Finding × List Finding)
    (hf : ∀ ns ∈ nss, podSection o ns = .ok (f ns).1 ∧ svcSection o ns = .ok (f ns).2.1 ∧
      depSection o ns = .ok (f ns).2.2) :
    scanAllLoop o nss = .ok ((nss.map fun ns => (f ns).1 ++ (f ns).2.1 ++ (f ns).2.2).flatten) := by
  induction nss with
  | nil => rfl
  | cons ns rest ih =>
    obtain ⟨hp, hs, hd⟩ := hf ns (List.mem_cons_self ns rest)
    have hrest : ∀ x ∈ rest, podSection o x = .ok (f x).1 ∧ svcSection o x = .ok (f x).2.1 ∧
        depSection o x = .ok (f x).2.2 :=
      fun x hx => hf x (List.mem_cons_of_mem ns hx)
    rw [scanAllLoop, hp, pyBind_ok, hs, pyBind_ok, hd, pyBind_ok, ih hrest, pyBind_ok]
    simp [List.append_assoc]
    rfl

/-- Claim C6, amended: `scan_namespace` orders findings as pods, then
deployments, then services, then nodes; `scan_all_namespaces` orders them
as pods, then services, then deployments within each namespace iterated in
listing order, followed by one cluster-scoped node scan. -/
theorem c6_amended_scan_order (o : KubeOracle) :
    (∀ ns psL dsL ssL ndL,
      podSection o ns = .ok psL → depSection o ns = .ok dsL →
      svcSection o ns = .ok ssL → nodeSection o = .ok ndL →
      scanNamespace o ns = .ok (psL ++ dsL ++ ssL ++ ndL)) ∧
    (∀ nss ndL (f : Json → List Finding × List Finding × List Finding),
      nsEnumerate o = .ok (some nss) → nodeSection o = .ok ndL →
      (∀ ns ∈ nss, podSection o ns = .ok (f ns).1 ∧ svcSection o ns = .ok (f ns).2.1 ∧
        depSection o ns = .ok (f ns).2.2) →
      scanAllNamespaces o = .ok
        ((nss.map fun ns => (f ns).1 ++ (f ns).2.1 ++ (f ns).2.2).flatten ++ ndL)) := by
  constructor
  · intro ns psL dsL ssL ndL hp hd hs hn
    rw [scanNamespace, hp, pyBind_ok, hd, pyBind_ok, hs, pyBind_ok, hn, pyBind_ok]
    rfl
  · intro nss ndL f hn hnd hf
    rw [scanAllNamespaces, hn, pyBind_ok]
    show (do
        let perNs ← scanAllLoop o nss
        let nds ← nodeSection o
        pure (perNs ++ nds) : Py (List Finding)) = _
    rw [scanAllLoop_ok o nss f hf, pyBind_ok, hnd, pyBind_ok]
    rfl

/-- The service finding produced from `svcListJ` in namespace `default`. -/
def svcFinding6 : Finding :=
  { kind := pys "service", name := jstr "bad-svc", nspace := jstr "default",
    status := jstr "NoReadyEndpoints", reason := jstr "No ready endpoints" }

/-- The deployment finding produced from `depListJ` in namespace `default`. -/
def depFinding6 : Finding :=
  { kind := pys "deployment", name := jstr "bad-deploy", nspace := jstr "default",
    status := jstr "1/3 available", reason := jstr "Insufficient replicas" }

/-- Witness for the amended C6 at the concrete oracle: the all-namespaces
scan lists the service finding, then the deployment finding, then nodes. -/
theorem c6_amended_scan_order_witness :
    scanAllNamespaces c6Oracle = .ok [svcFinding6, depFinding6] := by
  have h := (c6_amended_scan_order c6Oracle).2 [jstr "default"] []
    (fun _ => ([], [svcFinding6], [depFinding6])) rfl rfl
    (by
      intro ns hns
      rw [List.mem_singleton] at hns
      subst hns
      exact ⟨rfl, rfl, rfl⟩)
  exact h.trans (by rfl)

/-! ## Watch loop (`kfix/cli.py` lines 741-846).

One cycle of the `while True` body, as a pure function of the loop state
(`known_keys`, `first_run`) and the scan result: compute the identity set,
diff it against the previous snapshot, render the table with new entries
flagged, report new/resolved only after the first run, and store the
current identity set for the next diff. -/

/-- Resource identity used by the watch loop:
`(r["kind"], r["name"], r["namespace"])`. -/
abbrev WatchKey := PyStr × Json × Json

/-- The identity triple of a finding. -/
def findingKey (r : Finding) : WatchKey := (r.kind, r.name, r.nspace)

/-- Watch-loop state carried between cycles. -/
structure WatchState where
  knownKeys : Finset WatchKey
  firstRun : Bool

/-- Observable output of one watch cycle: the rendered rows with their
new-entry highlight flag, and the new/resolved report (absent on the first
iteration). -/
structure WatchCycleOut where
  table : List (Finding × Bool)
  report : Option (Finset WatchKey × Finset WatchKey)

/-- One iteration of the watch loop body. -/
def watchCycle (st : WatchState) (unhealthy : List Finding) : WatchCycleOut × WatchState :=
  let currentKeys := (unhealthy.map findingKey).toFinset
  let newKeys := currentKeys \ st.knownKeys
  let resolvedKeys := st.knownKeys \ currentKeys
  ({ table := unhealthy.map fun r => (r, decide (findingKey r ∈ newKeys)),
     report := if st.firstRun then none else some (newKeys, resolvedKeys) },
   { knownKeys := currentKeys, firstRun := false })

/-- Claim C3: for consecutive cycles with previous snapshot `P` and current
identity set `C`, the loop computes `new = C − P` and `resolved = P − C`;
these are disjoint and `new ∩ P = ∅`; on the first iteration no
new/resolved report is produced; and the snapshot stored for the next diff
is exactly the current cycle's identity set. -/
theorem c3_watch_diff_invariant (st : WatchState) (unhealthy : List Finding) :
    (∀ nk rk, (watchCycle st unhealthy).1.report = some (nk, rk) →
      nk = (unhealthy.map findingKey).toFinset \ st.knownKeys ∧
      rk = st.knownKeys \ (unhealthy.map findingKey).toFinset ∧
      nk ∩ rk = ∅ ∧ nk ∩ st.knownKeys = ∅) ∧
    (st.firstRun = true → (watchCycle st unhealthy).1.report = none) ∧
    (watchCycle st unhealthy).2.knownKeys = (unhealthy.map findingKey).toFinset ∧
    (watchCycle st unhealthy).2.firstRun = false := by
  refine ⟨?_, ?_, rfl, rfl⟩
  · intro nk rk hrep
    rw [watchCycle] at hrep
    simp only at hrep
    by_cases hfr : st.firstRun = true
    · rw [if_pos hfr] at hrep
      exact Option.noConfusion hrep
    · rw [if_neg hfr] at hrep
      injection hrep with hrep
      rw [Prod.mk.injEq] at hrep
      obtain ⟨h1, h2⟩ := hrep
      subst h1
      subst h2
      refine ⟨rfl, rfl, ?_, ?_⟩
      · ext x
        simp only [Finset.mem_inter, Finset.mem_sdiff, Finset.not_mem_empty, iff_false]
        tauto
      · ext x
        simp only [Finset.mem_inter, Finset.mem_sdiff, Finset.not_mem_empty, iff_false]
        tauto
  · intro hfr
    rw [watchCycle]
    simp only [hfr, if_true]

/-- Previous watch state for the C3 witness: one known issue `pod/a`,
not the first run. -/
def stW : WatchState :=
  { knownKeys := {(pys "pod", jstr "a", jstr "default")}, firstRun := false }

/-- Current scan result for the C3 witness: one finding `pod/b`. -/
def uhW : List Finding :=
  [{ kind := pys "pod", name := jstr "b", nspace := jstr "default",
     status := jstr "Pending", reason := jstr "ImagePullBackOff" }]

/-- Witness for C3 at the spec's two-cycle scenario (cycle 1 finds `pod/a`,
cycle 2 finds `pod/b`): `new = {pod/b}`, `resolved = {pod/a}`, disjoint and
disjoint from the previous snapshot. -/
theorem c3_watch_diff_invariant_witness :
    ({(pys "pod", jstr "b", jstr "default")} : Finset WatchKey) ∩
      {(pys "pod", jstr "a", jstr "default")} = ∅ ∧
    ({(pys "pod", jstr "b", jstr "default")} : Finset WatchKey) ∩ stW.knownKeys = ∅ := by
  have h := (c3_watch_diff_invariant stW uhW).1
    {(pys "pod", jstr "b", jstr "default")} {(pys "pod", jstr "a", jstr "default")}
    (by decide)
  exact ⟨h.2.2.1, h.2.2.2⟩

/-! ## Command extractor (`extract_kubectl_commands`, `kfix/cli.py` 110-140).

The code applies `re.finditer` with
`r"```(?:bash|sh)?\s*(kubectl[^\n]+(?:\n(?!```).*)*)\s*```"` under
`re.MULTILINE | re.DOTALL` and, when that yields no commands, the inline
pattern `` r"`(kubectl[^`]+)`" ``.  The embedding below implements the
backtracking search of those two fixed patterns directly: each greedy
quantifier tries its longest extent first (`descFind` counts downward), the
alternation tries `bash`, then `sh`, then the empty tag, `.` matches any
character including newline (DOTALL), the loop `(?:\n(?!```).*)*` reaches,
in first-preference order, every end position from the end of the string
down to just after the newline (because `.*` absorbs arbitrary text)
provided its first iteration's lookahead allows a newline not followed by
a fence, and `finditer` scans left to right resuming at each match end.
The group-1 span is `(capStart, capEnd)`. -/

/-- The backtick character (code point 96). -/
def btChar : Char := Char.ofNat 96

/-- Length of the maximal run of characters satisfying `p`. -/
def runLen (p : Char → Bool) (l : PyStr) : Nat := (l.takeWhile p).length

/-- Maximal `\s` run at position `i`. -/
def wsRunAt (s : PyStr) (i : Nat) : Nat := runLen isPyWs (s.drop i)

/-- The character class `[^\n]`. -/
def nonNl (c : Char) : Bool := c ≠ '\n'

/-- Maximal run of `[^\n]` characters at position `i`. -/
def nonNlRunAt (s : PyStr) (i : Nat) : Nat := runLen nonNl (s.drop i)

/-- Literal match at position `i`. -/
def litAt (s : PyStr) (i : Nat) (lit : PyStr) : Bool := lit.isPrefixOf (s.drop i)

/-- Try `f` at `k, k-1, ..., 0`, returning the first success: the
backtracking order of a greedy quantifier. -/
def descFind {α : Type} (k : Nat) (f : Nat → Option α) : Option α :=
  match f k with
  | some r => some r
  | none =>
    match k with
    | 0 => none
    | k' + 1 => descFind k' f

/-- Trailing `\s*` + closing fence at candidate capture end `j4`:
on success, the group span is `(j1, j4)` and the match ends after the
fence. -/
def postTry (s : PyStr) (j1 j4 : Nat) : Option (Nat × Nat × Nat) :=
  descFind (wsRunAt s j4) fun u =>
    if litAt s (j4 + u) (pys "```") then some (j1, j4, j4 + u + 3) else none

/-- The loop `(?:\n(?!```).*)*` starting at `j3`, followed by the trailing
fence: when the first iteration is admissible (a newline not followed by a
fence), every capture end from the end of the string down to `j3 + 1` is
tried in that order, then the zero-iteration end `j3`. -/
def loopPost (s : PyStr) (j1 j3 : Nat) : Option (Nat × Nat × Nat) :=
  if (s.drop j3).head? = some '\n' && !litAt s (j3 + 1) (pys "```") then
    match descFind (s.length - (j3 + 1)) (fun d => postTry s j1 (j3 + 1 + d)) with
    | some r => some r
    | none => postTry s j1 j3
  else postTry s j1 j3

/-- `kubectl[^\n]+` then the loop: the first line extends greedily. -/
def lineTry (s : PyStr) (j1 : Nat) : Option (Nat × Nat × Nat) :=
  descFind (nonNlRunAt s (j1 + 7)) fun r =>
    if r = 0 then none else loopPost s j1 (j1 + 7 + r)

/-- The literal `kubectl` at the capture start. -/
def kubTry (s : PyStr) (j1 : Nat) : Option (Nat × Nat × Nat) :=
  if litAt s j1 (pys "kubectl") then lineTry s j1 else none

/-- `\s*` after the optional tag, greedy. -/
def tagTry (s : PyStr) (j0 : Nat) : Option (Nat × Nat × Nat) :=
  descFind (wsRunAt s j0) fun w => kubTry s (j0 + w)

/-- One match attempt of the code-block pattern at position `i`. -/
def attemptAt (s : PyStr) (i : Nat) : Option (Nat × Nat × Nat) :=
  if litAt s i (pys "```") then
    match (if litAt s (i + 3) (pys "bash") then tagTry s (i + 7) else none) with
    | some r => some r
    | none =>
      match (if litAt s (i + 3) (pys "sh") then tagTry s (i + 5) else none) with
      | some r => some r
      | none => tagTry s (i + 3)
  else none

/-- `re.finditer` scan for the code-block pattern: group-1 spans in order.
Every match here ends strictly after its start, so resuming at
`max e (i + 1)` is resuming at the match end, as `finditer` does.
The scan position `i` advances by at least one on every step, so fuel
`s.length + 1` (the number of scan positions) never runs out before the
`i > s.length` exit: the fuel-free loop is recovered exactly. -/
def goFind (s : PyStr) : Nat → Nat → List (Nat × Nat)
  | 0, _ => []
  | fuel + 1, i =>
    if i ≤ s.length then
      match attemptAt s i with
      | some (a, b, e) => (a, b) :: goFind s fuel (max e (i + 1))
      | none => goFind s fuel (i + 1)
    else []

/-- All group-1 spans of the code-block pattern. -/
def findAllBlocks (s : PyStr) : List (Nat × Nat) := goFind s (s.length + 1) 0

/-- The substring `s[a:b]`. -/
def capSlice (s : PyStr) (a b : Nat) : PyStr := (s.drop a).take (b - a)

/-- Per-block line processing: `block.strip()`, split on newlines, strip
each line, keep lines beginning with `kubectl` that are not comments. -/
def blockCommands (block : PyStr) : List PyStr :=
  (((pyStrip block).splitOn '\n').map pyStrip).filter fun l =>
    (pys "kubectl").isPrefixOf l && !((pys "#").isPrefixOf l)

/-- The character class of non-backtick characters. -/
def notBt (c : Char) : Bool := c ≠ btChar

/-- One match attempt of the inline pattern `` `(kubectl[^`]+)` `` at
position `i`: a backtick, the literal `kubectl`, then a maximal non-empty
backtick-free run that must stop at a closing backtick inside the string. -/
def inlineTryAt (s : PyStr) (i : Nat) : Option (PyStr × Nat) :=
  if (s.drop i).head? = some btChar && litAt s (i + 1) (pys "kubectl") then
    let R := runLen notBt (s.drop (i + 8))
    if R = 0 then none
    else if R < (s.drop (i + 8)).length then
      some (pys "kubectl" ++ (s.drop (i + 8)).take R, i + 8 + R + 1)
    else none
  else none

/-- `re.finditer` scan for the inline pattern, with the same fuel scheme
as `goFind`. -/
def inlineGo (s : PyStr) : Nat → Nat → List PyStr
  | 0, _ => []
  | fuel + 1, i =>
    if i ≤ s.length then
      match inlineTryAt s i with
      | some (cap, e) => cap :: inlineGo s fuel (max e (i + 1))
      | none => inlineGo s fuel (i + 1)
    else []

/-- `extract_kubectl_commands` from `kfix/cli.py`: commands from fenced
code blocks; only when that yields none, inline single-backtick spans. -/
def extractKubectlCommands (s : PyStr) : List PyStr :=
  if ((findAllBlocks s).flatMap fun p => blockCommands (capSlice s p.1 p.2)).isEmpty then
    ((inlineGo s (s.length + 1) 0).map pyStrip).filter fun c => (pys "kubectl").isPrefixOf c
  else (findAllBlocks s).flatMap fun p => blockCommands (capSlice s p.1 p.2)

/-! ### Generic lemmas about the matcher's primitives. -/

lemma runLen_cons (p : Char → Bool) (c : Char) (l : PyStr) :
    runLen p (c :: l) = if p c then runLen p l + 1 else 0 := by
  by_cases h : p c <;> simp [runLen, List.takeWhile_cons, h]

lemma runLen_append_all (p : Char → Bool) (u v : PyStr) (h : ∀ c ∈ u, p c = true) :
    runLen p (u ++ v) = u.length + runLen p v := by
  induction u with
  | nil => simp
  | cons a u ih =>
    have ha : p a = true := h a (List.mem_cons_self a u)
    have ih' := ih fun c hc => h c (List.mem_cons_of_mem a hc)
    simp [runLen_cons, ha, ih']
    omega

lemma head_drop_of_lt_runLen (p : Char → Bool) (t : PyStr) (w : Nat)
    (h : w < runLen p t) : ∃ c, (t.drop w).head? = some c ∧ p c = true := by
  induction t generalizing w with
  | nil => simp [runLen] at h
  | cons a t ih =>
    rw [runLen_cons] at h
    by_cases ha : p a
    · rw [if_pos ha] at h
      cases w with
      | zero => exact ⟨a, rfl, ha⟩
      | succ w => exact ih w (by omega)
    · rw [if_neg ha] at h; omega

lemma drop_runLen (p : Char → Bool) (t : PyStr) :
    t.drop (runLen p t) = t.dropWhile p := by
  induction t with
  | nil => rfl
  | cons a t ih =>
    rw [runLen_cons]
    by_cases ha : p a
    · rw [if_pos ha, List.dropWhile_cons_of_pos ha]
      simpa using ih
    · rw [if_neg ha, List.dropWhile_cons_of_neg ha, List.drop_zero]

lemma descFind_first {α : Type} (k : Nat) (f : Nat → Option α) (r : α)
    (h : f k = some r) : descFind k f = some r := by
  cases k <;> simp [descFind, h]

lemma descFind_none {α : Type} (f : Nat → Option α) :
    ∀ k, (∀ v, v ≤ k → f v = none) → descFind k f = none := by
  intro k
  induction k with
  | zero => intro h; simp [descFind, h 0 le_rfl]
  | succ k ih =>
    intro h
    simp [descFind, h (k + 1) le_rfl]
    exact ih fun v hv => h v (le_trans hv (Nat.le_succ k))

lemma descFind_eventually {α : Type} (f : Nat → Option α) (m : Nat) (r : α)
    (hm : f m = some r) (hfail : ∀ v, m < v → f v = none) :
    ∀ k, m ≤ k → descFind k f = some r := by
  intro k
  induction k with
  | zero =>
    intro h
    have hm0 : m = 0 := Nat.le_zero.mp h
    subst hm0
    simp [descFind, hm]
  | succ k ih =>
    intro h
    by_cases he : m = k + 1
    · subst he; simp [descFind, hm]
    · have hf : f (k + 1) = none := hfail _ (lt_of_le_of_ne h he)
      simp [descFind, hf]
      exact ih (by omega)

lemma isPrefixOf_head {a : Char} {l m : PyStr}
    (h : (a :: l).isPrefixOf m = true) : m.head? = some a := by
  cases m with
  | nil => simp [List.isPrefixOf] at h
  | cons b m =>
    obtain ⟨t, ht⟩ := List.isPrefixOf_iff_prefix.mp h
    rw [List.cons_append] at ht
    injection ht with h1 _
    simp [h1]

lemma isPrefixOf_append_left (l B X : PyStr) (h : l.isPrefixOf B = true) :
    l.isPrefixOf (B ++ X) = true := by
  rw [List.isPrefixOf_iff_prefix] at h ⊢
  exact h.trans (List.prefix_append B X)

lemma take_of_isPrefixOf {l m : PyStr} (h : l.isPrefixOf m = true) :
    m.take l.length = l := by
  obtain ⟨t, ht⟩ := List.isPrefixOf_iff_prefix.mp h
  subst ht
  exact List.take_left l t

lemma litAt_short (s lit : PyStr) (i : Nat) (h0 : 0 < lit.length)
    (h : s.length < i + lit.length) : litAt s i lit = false := by
  by_contra hc
  have hp : lit.isPrefixOf (s.drop i) = true := by
    simpa [litAt] using hc
  have := (List.isPrefixOf_iff_prefix.mp hp).length_le
  rw [List.length_drop] at this
  omega

lemma dropWhile_head_false (p : Char → Bool) :
    ∀ (l : PyStr) (c : Char) (r : PyStr), l.dropWhile p = c :: r → p c = false := by
  intro l
  induction l with
  | nil => intro c r h; simp at h
  | cons a l ih =>
    intro c r h
    by_cases ha : p a
    · rw [List.dropWhile_cons_of_pos ha] at h; exact ih c r h
    · rw [List.dropWhile_cons_of_neg ha] at h
      injection h with h1 _
      rw [← h1]; simpa using ha

lemma dropWhile_eq_self_of_head_false {p : Char → Bool} {a : Char} {l : PyStr}
    (h : p a = false) : (a :: l).dropWhile p = a :: l :=
  List.dropWhile_cons_of_neg (by simp [h])

/-! ### A markdown text consisting of a single fenced `bash` block. -/

/-- Modelled from the spec: C9's `extract_as_markdown` renders commands as
the lines of one code block; this is the newline join of those lines. -/
def joinNl : List PyStr → PyStr
  | [] => []
  | [c] => c
  | c :: rest => c ++ '\n' :: joinNl rest

/-- Modelled from the spec: a markdown text that is exactly one fenced
`bash` code block with content `B`. -/
def renderBashBlock (B : PyStr) : PyStr := pys "```bash\n" ++ (B ++ pys "\n```")

lemma render_length (B : PyStr) : (renderBashBlock B).length = B.length + 12 := by
  unfold renderBashBlock
  rw [List.length_append, List.length_append,
    show (pys "```bash\n").length = 8 from rfl, show (pys "\n```").length = 4 from rfl]
  omega

lemma render_drop8 (B : PyStr) : (renderBashBlock B).drop 8 = B ++ pys "\n```" := by
  unfold renderBashBlock
  rw [show (8 : Nat) = (pys "```bash\n").length from rfl, List.drop_left]

lemma render_drop_le8 (B : PyStr) (n : Nat) (h : n ≤ 8) :
    (renderBashBlock B).drop n = (pys "```bash\n").drop n ++ (B ++ pys "\n```") := by
  unfold renderBashBlock
  rw [List.drop_append_eq_append_drop,
    show n - (pys "```bash\n").length = 0 by
      rw [show (pys "```bash\n").length = 8 from rfl]; omega,
    List.drop_zero]

lemma render_drop_mid (B : PyStr) (n : Nat) (h8 : 8 ≤ n) (hn : n - 8 ≤ B.length) :
    (renderBashBlock B).drop n = B.drop (n - 8) ++ pys "\n```" := by
  have h1 : (renderBashBlock B).drop n = ((renderBashBlock B).drop 8).drop (n - 8) := by
    rw [List.drop_drop]; congr 1; omega
  rw [h1, render_drop8, List.drop_append_eq_append_drop,
    show n - 8 - B.length = 0 by omega, List.drop_zero]

lemma render_drop_end (B : PyStr) :
    (renderBashBlock B).drop (B.length + 9) = pys "```" := by
  have h1 : (renderBashBlock B).drop (B.length + 9)
      = ((renderBashBlock B).drop 8).drop (B.length + 1) := by
    rw [List.drop_drop]; congr 1; omega
  rw [h1, render_drop8, List.drop_append_eq_append_drop,
    List.drop_eq_nil_of_le (by omega), List.nil_append,
    show B.length + 1 - B.length = 1 from by omega]
  rfl

lemma render_drop_past (B : PyStr) (n : Nat) (h : B.length + 12 ≤ n) :
    (renderBashBlock B).drop n = [] :=
  List.drop_eq_nil_of_le (by rw [render_length]; omega)

lemma render_getElem_lo (B : PyStr) (i : Nat) (h : i < 8) :
    (renderBashBlock B)[i]? = (pys "```bash\n")[i]? := by
  unfold renderBashBlock
  exact List.getElem?_append_left
    (by rw [show (pys "```bash\n").length = 8 from rfl]; omega)

lemma render_getElem_mid (B : PyStr) (i : Nat) (h8 : 8 ≤ i) (hi : i < 8 + B.length) :
    (renderBashBlock B)[i]? = B[i - 8]? := by
  unfold renderBashBlock
  rw [List.getElem?_append_right
    (by rw [show (pys "```bash\n").length = 8 from rfl]; omega),
    show (pys "```bash\n").length = 8 from rfl]
  exact List.getElem?_append_left (by omega)

lemma render_getElem_hi (B : PyStr) (i : Nat) (h : 8 + B.length ≤ i) :
    (renderBashBlock B)[i]? = (pys "\n```")[i - 8 - B.length]? := by
  unfold renderBashBlock
  rw [List.getElem?_append_right
    (by rw [show (pys "```bash\n").length = 8 from rfl]; omega),
    show (pys "```bash\n").length = 8 from rfl,
    List.getElem?_append_right (by omega)]

lemma litAt_getElem {s lit : PyStr} {i : Nat} (h : litAt s i lit = true)
    (k : Nat) (hk : k < lit.length) : s[i + k]? = lit[k]? := by
  have hp : lit <+: s.drop i := by simpa [litAt] using h
  obtain ⟨t, ht⟩ := hp
  rw [← List.getElem?_drop, ← ht]
  exact List.getElem?_append_left hk

/-- In the rendered block (backtick-free content), backticks occur only in
the two fences. -/
lemma render_bt_pos (B : PyStr) (hbt : btChar ∉ B) (i : Nat)
    (h : (renderBashBlock B)[i]? = some btChar) :
    i < 3 ∨ B.length + 9 ≤ i := by
  by_cases h1 : i < 8
  · rw [render_getElem_lo B i h1] at h
    interval_cases i
    · omega
    · omega
    · omega
    · exact absurd h (by decide)
    · exact absurd h (by decide)
    · exact absurd h (by decide)
    · exact absurd h (by decide)
    · exact absurd h (by decide)
  · by_cases h2 : i < 8 + B.length
    · rw [render_getElem_mid B i (by omega) h2] at h
      exact absurd (List.getElem?_mem h) hbt
    · rw [render_getElem_hi B i (by omega)] at h
      by_cases h3 : i - 8 - B.length < 4
      · have h4 : i - 8 - B.length ≠ 0 := by
          intro h0
          rw [h0] at h
          exact absurd h (by decide)
        omega
      · rw [List.getElem?_eq_none (by rw [show (pys "\n```").length = 4 from rfl]; omega)] at h
        exact absurd h (by simp)

/-- The opening-fence test of the block pattern succeeds only at the two
fences of the rendered block. -/
lemma render_fence_pos (B : PyStr) (hbt : btChar ∉ B) (i : Nat)
    (h : litAt (renderBashBlock B) i (pys "```") = true) :
    i = 0 ∨ i = B.length + 9 := by
  have h0 : (renderBashBlock B)[i + 0]? = some btChar := by
    rw [litAt_getElem h 0 (by decide)]; rfl
  have h1 : (renderBashBlock B)[i + 1]? = some btChar := by
    rw [litAt_getElem h 1 (by decide)]; rfl
  have h2 : (renderBashBlock B)[i + 2]? = some btChar := by
    rw [litAt_getElem h 2 (by decide)]; rfl
  have hlt : i + 2 < (renderBashBlock B).length := (List.getElem?_eq_some.mp h2).1
  rw [render_length] at hlt
  rcases render_bt_pos B hbt _ h0 with c0 | c0
  · rcases render_bt_pos B hbt _ h1 with c1 | c1
    · rcases render_bt_pos B hbt _ h2 with c2 | c2
      · omega
      · omega
    · omega
  · omega

lemma isPrefixOf_self_append (l x : PyStr) : l.isPrefixOf (l ++ x) = true := by
  rw [List.isPrefixOf_iff_prefix]; exact List.prefix_append l x

lemma some3_ext (a b c a' b' c' : Nat) (h1 : a = a') (h2 : b = b') (h3 : c = c') :
    (some (a, b, c) : Option (Nat × Nat × Nat)) = some (a', b', c') := by
  rw [h1, h2, h3]

/-- Core of the successful match on a rendered block: after the tag
`bash`, `\s*` eats exactly the fence newline, `kubectl` matches the
content head, the first line extends to its end, and the loop plus
trailing `\s*```' close at the final fence.  The capture ends at the
content end (single-line content) or after its last newline (multi-line
content, where `\s*` backtracks to leave `.*` the rest). -/
lemma tagTry_render (B : PyStr) (hbt : btChar ∉ B)
    (hk : (pys "kubectl").isPrefixOf B = true)
    (c : Char) (hc : (B.drop 7).head? = some c) (hcn : c ≠ '\n') :
    tagTry (renderBashBlock B) 7 =
      some (8, if B.dropWhile nonNl = [] then B.length + 8 else B.length + 9,
        B.length + 12) := by
  -- shape of the content
  have hkB : B.take 7 = pys "kubectl" := by
    have h := take_of_isPrefixOf hk
    rwa [show (pys "kubectl").length = 7 from rfl] at h
  have hd7 : B.drop 7 = c :: B.drop 8 := by
    cases hB : B.drop 7 with
    | nil => rw [hB] at hc; exact absurd hc (by simp)
    | cons b t =>
      rw [hB] at hc
      have hb : b = c := by simpa using hc
      subst hb
      have ht : (B.drop 7).tail = t := by rw [hB]; rfl
      rw [List.tail_drop] at ht
      rw [ht]
  have hBsplit : B = pys "kubectl" ++ (c :: B.drop 8) := by
    conv_lhs => rw [← List.take_append_drop 7 B]
    rw [hkB, hd7]
  have hB8 : 8 ≤ B.length := by
    have h := congrArg List.length hBsplit
    rw [List.length_append, List.length_cons,
      show (pys "kubectl").length = 7 from rfl] at h
    omega
  have hL : runLen nonNl B = 8 + runLen nonNl (B.drop 8) := by
    conv_lhs => rw [hBsplit]
    rw [runLen_append_all nonNl _ _ (by decide), runLen_cons,
      if_pos (by simp [nonNl, hcn]), show (pys "kubectl").length = 7 from rfl]
    omega
  have hL8 : 8 ≤ runLen nonNl B := by omega
  have hLle : runLen nonNl B ≤ B.length := (List.takeWhile_prefix nonNl).length_le
  have hheadB : ∃ t, B = 'k' :: t := by
    cases hB : B with
    | nil => rw [hB] at hkB; exact absurd hkB (by decide)
    | cons b t =>
      rw [hB, List.take_cons (by omega : 0 < 7),
        show pys "kubectl" = 'k' :: pys "ubectl" from rfl] at hkB
      injection hkB with h1 _
      exact ⟨t, by rw [h1]⟩
  -- drops at the relevant positions
  have hdrop7 : (renderBashBlock B).drop 7 = '\n' :: (B ++ pys "\n```") := by
    rw [render_drop_le8 B 7 (by omega)]
    rfl
  have hws7 : wsRunAt (renderBashBlock B) 7 = 1 := by
    obtain ⟨t, ht⟩ := hheadB
    unfold wsRunAt
    rw [hdrop7, runLen_cons, if_pos (by decide), ht, List.cons_append,
      runLen_cons, if_neg (by decide)]
  have hlit8 : litAt (renderBashBlock B) 8 (pys "kubectl") = true := by
    unfold litAt
    rw [render_drop8]
    exact isPrefixOf_append_left _ _ _ hk
  have hdrop15 : (renderBashBlock B).drop 15 = B.drop 7 ++ pys "\n```" := by
    rw [render_drop_mid B 15 (by omega) (by omega)]
  have hR : nonNlRunAt (renderBashBlock B) 15 = runLen nonNl B - 7 := by
    unfold nonNlRunAt
    rw [hdrop15]
    have hb1 : B.drop 7 = (B.takeWhile nonNl).drop 7 ++ B.dropWhile nonNl := by
      conv_lhs => rw [← List.takeWhile_append_dropWhile nonNl B]
      rw [List.drop_append_eq_append_drop,
        show 7 - (B.takeWhile nonNl).length = 0 from by
          have : (B.takeWhile nonNl).length = runLen nonNl B := rfl
          omega,
        List.drop_zero]
    rw [hb1, List.append_assoc,
      runLen_append_all nonNl _ _
        (fun x hx => List.mem_takeWhile_imp (List.mem_of_mem_drop hx))]
    have hz : runLen nonNl (B.dropWhile nonNl ++ pys "\n```") = 0 := by
      cases hB2 : B.dropWhile nonNl with
      | nil => simp only [List.nil_append]; decide
      | cons d t =>
        have hdf := dropWhile_head_false nonNl B d t hB2
        rw [List.cons_append, runLen_cons, if_neg (by simp [hdf])]
    rw [hz, List.length_drop]
    have : (B.takeWhile nonNl).length = runLen nonNl B := rfl
    omega
  -- case split on whether the content is single-line
  by_cases hB2 : B.dropWhile nonNl = []
  · -- single-line content: the first line is all of it
    have hLB : runLen nonNl B = B.length := by
      have h := List.takeWhile_append_dropWhile nonNl B
      rw [hB2, List.append_nil] at h
      have h2 : (B.takeWhile nonNl).length = runLen nonNl B := rfl
      rw [← h2, h]
    have hdropJ3 : (renderBashBlock B).drop (8 + runLen nonNl B) = pys "\n```" := by
      rw [hLB, show 8 + B.length = B.length + 8 from by omega,
        render_drop_mid B _ (by omega) (by omega),
        show B.length + 8 - 8 = B.length from by omega,
        List.drop_length, List.nil_append]
    have hlitJ4 : litAt (renderBashBlock B) (8 + runLen nonNl B + 1) (pys "```") = true := by
      unfold litAt
      rw [hLB, show 8 + B.length + 1 = B.length + 9 from by omega, render_drop_end]
      decide
    have hpost : postTry (renderBashBlock B) 8 (8 + runLen nonNl B)
        = some (8, B.length + 8, B.length + 12) := by
      unfold postTry
      have hws : wsRunAt (renderBashBlock B) (8 + runLen nonNl B) = 1 := by
        unfold wsRunAt; rw [hdropJ3]; decide
      rw [hws]
      apply descFind_first
      rw [if_pos hlitJ4]
      exact some3_ext _ _ _ _ _ _ rfl (by omega) (by omega)
    have hloop : loopPost (renderBashBlock B) 8 (8 + runLen nonNl B)
        = some (8, B.length + 8, B.length + 12) := by
      unfold loopPost
      rw [hlitJ4, if_neg (by simp)]
      exact hpost
    have hline : lineTry (renderBashBlock B) 8
        = some (8, B.length + 8, B.length + 12) := by
      unfold lineTry
      rw [show (8 : Nat) + 7 = 15 from by norm_num, hR]
      apply descFind_first
      rw [if_neg (show ¬(runLen nonNl B - 7 = 0) from by omega),
        show 15 + (runLen nonNl B - 7) = 8 + runLen nonNl B from by omega, hloop]
    have hkub : kubTry (renderBashBlock B) 8
        = some (8, B.length + 8, B.length + 12) := by
      unfold kubTry
      rw [if_pos hlit8]
      exact hline
    rw [if_pos hB2]
    unfold tagTry
    rw [hws7]
    apply descFind_first
    rw [show (7 : Nat) + 1 = 8 from by norm_num, hkub]
  · -- multi-line content: the loop spans to the last content newline
    obtain ⟨d, t, hdt⟩ : ∃ d t, B.dropWhile nonNl = d :: t := by
      cases hx : B.dropWhile nonNl with
      | nil => exact absurd hx hB2
      | cons d t => exact ⟨d, t, rfl⟩
    have hd : d = '\n' := by
      have h := dropWhile_head_false nonNl B d t hdt
      unfold nonNl at h
      simpa using h
    have hlen : B.length = runLen nonNl B + 1 + t.length := by
      have h := congrArg List.length (List.takeWhile_append_dropWhile nonNl B)
      rw [List.length_append, hdt, List.length_cons] at h
      have h2 : (B.takeWhile nonNl).length = runLen nonNl B := rfl
      omega
    have hdropL : B.drop (runLen nonNl B) = '\n' :: t := by
      have h2 : (B.takeWhile nonNl).length = runLen nonNl B := rfl
      have h3 := List.drop_left (B.takeWhile nonNl) (B.dropWhile nonNl)
      rw [List.takeWhile_append_dropWhile, h2, hdt, hd] at h3
      exact h3
    have hdropJ3 : (renderBashBlock B).drop (8 + runLen nonNl B)
        = '\n' :: (t ++ pys "\n```") := by
      rw [show 8 + runLen nonNl B = runLen nonNl B + 8 from by omega,
        render_drop_mid B _ (by omega) (by omega),
        show runLen nonNl B + 8 - 8 = runLen nonNl B from by omega,
        hdropL, List.cons_append]
    have hdropJ4 : (renderBashBlock B).drop (8 + runLen nonNl B + 1)
        = t ++ pys "\n```" := by
      rw [show 8 + runLen nonNl B + 1 = runLen nonNl B + 1 + 8 from by omega,
        render_drop_mid B _ (by omega) (by omega),
        show runLen nonNl B + 1 + 8 - 8 = runLen nonNl B + 1 from by omega,
        ← List.drop_drop, hdropL]
      rfl
    have hlitJ4 : litAt (renderBashBlock B) (8 + runLen nonNl B + 1) (pys "```") = false := by
      unfold litAt
      rw [hdropJ4]
      cases t with
      | nil => simp only [List.nil_append]; decide
      | cons e r =>
        by_contra hcon
        have hcon2 : (pys "```").isPrefixOf ((e :: r) ++ pys "\n```") = true := by
          simpa using hcon
        rw [show pys "```" = btChar :: btChar :: btChar :: [] from by decide] at hcon2
        have hh := isPrefixOf_head hcon2
        rw [List.cons_append] at hh
        have he : e = btChar := by simpa using hh
        apply hbt
        rw [← he]
        exact (List.dropWhile_suffix nonNl).mem (by rw [hdt]; exact List.mem_cons_of_mem d (List.mem_cons_self e r))
    have hm : postTry (renderBashBlock B) 8 (B.length + 9)
        = some (8, B.length + 9, B.length + 12) := by
      unfold postTry
      have hws : wsRunAt (renderBashBlock B) (B.length + 9) = 0 := by
        unfold wsRunAt; rw [render_drop_end]; decide
      rw [hws]
      apply descFind_first
      rw [if_pos (show litAt (renderBashBlock B) (B.length + 9 + 0) (pys "```") = true from by
        unfold litAt
        rw [show B.length + 9 + 0 = B.length + 9 from by omega, render_drop_end]
        decide)]
    have hfail : ∀ v, t.length + 1 < v →
        postTry (renderBashBlock B) 8 (8 + runLen nonNl B + 1 + v) = none := by
      intro v hv
      unfold postTry
      apply descFind_none
      intro u _
      rw [litAt_short _ _ _ (by decide)
        (by rw [render_length, show (pys "```").length = 3 from rfl]; omega)]
      simp
    have hloop : loopPost (renderBashBlock B) 8 (8 + runLen nonNl B)
        = some (8, B.length + 9, B.length + 12) := by
      unfold loopPost
      rw [hdropJ3, hlitJ4]
      rw [if_pos (by simp)]
      rw [render_length]
      rw [descFind_eventually _ (t.length + 1) _
        (show postTry (renderBashBlock B) 8 (8 + runLen nonNl B + 1 + (t.length + 1))
            = some (8, B.length + 9, B.length + 12) from by
          rw [show 8 + runLen nonNl B + 1 + (t.length + 1) = B.length + 9 from by omega]
          exact hm)
        (fun v hv => hfail v hv)
        _ (by omega)]
    have hline : lineTry (renderBashBlock B) 8
        = some (8, B.length + 9, B.length + 12) := by
      unfold lineTry
      rw [show (8 : Nat) + 7 = 15 from by norm_num, hR]
      apply descFind_first
      rw [if_neg (show ¬(runLen nonNl B - 7 = 0) from by omega),
        show 15 + (runLen nonNl B - 7) = 8 + runLen nonNl B from by omega, hloop]
    have hkub : kubTry (renderBashBlock B) 8
        = some (8, B.length + 9, B.length + 12) := by
      unfold kubTry
      rw [if_pos hlit8]
      exact hline
    rw [if_neg hB2]
    unfold tagTry
    rw [hws7]
    apply descFind_first
    rw [show (7 : Nat) + 1 = 8 from by norm_num, hkub]

/-- The block pattern matches at position 0 of a rendered block whose
content starts with a `kubectl` line. -/
lemma attemptAt_render_zero (B : PyStr) (hbt : btChar ∉ B)
    (hk : (pys "kubectl").isPrefixOf B = true)
    (c : Char) (hc : (B.drop 7).head? = some c) (hcn : c ≠ '\n') :
    attemptAt (renderBashBlock B) 0 =
      some (8, if B.dropWhile nonNl = [] then B.length + 8 else B.length + 9,
        B.length + 12) := by
  have hfence : litAt (renderBashBlock B) 0 (pys "```") = true := by
    unfold litAt
    rw [List.drop_zero]
    unfold renderBashBlock
    rw [show pys "```bash\n" = pys "```" ++ pys "bash\n" from rfl, List.append_assoc]
    exact isPrefixOf_self_append _ _
  have hbash : litAt (renderBashBlock B) (0 + 3) (pys "bash") = true := by
    unfold litAt
    rw [show (0 : Nat) + 3 = 3 from by norm_num, render_drop_le8 B 3 (by omega),
      show (pys "```bash\n").drop 3 = pys "bash" ++ pys "\n" from rfl,
      List.append_assoc]
    exact isPrefixOf_self_append _ _
  unfold attemptAt
  rw [if_pos hfence, if_pos hbash,
    show (0 : Nat) + 7 = 7 from by norm_num,
    tagTry_render B hbt hk c hc hcn]

/-- No attempt of the block pattern succeeds at a positive position of a
rendered block. -/
lemma attemptAt_render_pos (B : PyStr) (hbt : btChar ∉ B) (i : Nat)
    (hi : 1 ≤ i) : attemptAt (renderBashBlock B) i = none := by
  by_cases hf : litAt (renderBashBlock B) i (pys "```") = true
  · -- only the closing fence remains, and the pattern runs off the end there
    rcases render_fence_pos B hbt i hf with h0 | hend
    · omega
    · subst hend
      unfold attemptAt
      rw [if_pos hf]
      have hshort : ∀ lit : PyStr, 0 < lit.length →
          litAt (renderBashBlock B) (B.length + 9 + 3) lit = false := by
        intro lit hl
        exact litAt_short _ _ _ hl (by rw [render_length]; omega)
      have htag : tagTry (renderBashBlock B) (B.length + 9 + 3) = none := by
        unfold tagTry
        have hws : wsRunAt (renderBashBlock B) (B.length + 9 + 3) = 0 := by
          unfold wsRunAt
          rw [show B.length + 9 + 3 = B.length + 12 from by omega,
            render_drop_past B _ (by omega)]
          rfl
        rw [hws]
        apply descFind_none
        intro v hv
        have hv0 : v = 0 := by omega
        subst hv0
        unfold kubTry
        rw [if_neg (by simp [hshort (pys "kubectl") (by decide)])]
      rw [if_neg (by simp [hshort (pys "bash") (by decide)]),
        if_neg (by simp [hshort (pys "sh") (by decide)])]
      exact htag
  · unfold attemptAt
    rw [if_neg (by simp [hf])]

/-- A scan whose every attempt at `i ≥ 1` fails returns nothing from `i ≥ 1`. -/
lemma goFind_none_of_pos (s : PyStr) (h : ∀ j, 1 ≤ j → attemptAt s j = none) :
    ∀ fuel i, 1 ≤ i → goFind s fuel i = [] := by
  intro fuel
  induction fuel with
  | zero => intro i _; rfl
  | succ fuel ih =>
    intro i hi
    show (if i ≤ s.length then
        match attemptAt s i with
        | some (a, b, e) => (a, b) :: goFind s fuel (max e (i + 1))
        | none => goFind s fuel (i + 1)
      else []) = []
    by_cases hle : i ≤ s.length
    · rw [if_pos hle, h i hi]
      exact ih (i + 1) (by omega)
    · rw [if_neg hle]

/-- The block scan of a rendered block with a leading `kubectl` line finds
exactly one group span. -/
lemma findAllBlocks_render (B : PyStr) (hbt : btChar ∉ B)
    (hk : (pys "kubectl").isPrefixOf B = true)
    (c : Char) (hc : (B.drop 7).head? = some c) (hcn : c ≠ '\n') :
    findAllBlocks (renderBashBlock B) =
      [(8, if B.dropWhile nonNl = [] then B.length + 8 else B.length + 9)] := by
  unfold findAllBlocks
  rw [render_length]
  show (if 0 ≤ (renderBashBlock B).length then
      match attemptAt (renderBashBlock B) 0 with
      | some (a, b, e) => (a, b) :: goFind (renderBashBlock B) (B.length + 12) (max e (0 + 1))
      | none => goFind (renderBashBlock B) (B.length + 12) (0 + 1)
    else []) = _
  rw [if_pos (Nat.zero_le _), attemptAt_render_zero B hbt hk c hc hcn]
  show (8, if B.dropWhile nonNl = [] then B.length + 8 else B.length + 9) ::
      goFind (renderBashBlock B) (B.length + 12) (max (B.length + 12) (0 + 1)) = _
  rw [goFind_none_of_pos (renderBashBlock B)
    (fun j hj => attemptAt_render_pos B hbt j hj) _ _ (by omega)]

/-- `s.drop 7` of a rendered block: the fence newline then content. -/
lemma render_drop7 (B : PyStr) :
    (renderBashBlock B).drop 7 = '\n' :: (B ++ pys "\n```") := by
  rw [render_drop_le8 B 7 (by omega)]
  rfl

lemma litAt_false_of_head {s : PyStr} {i : Nat} {a : Char} {l : PyStr} {c : Char}
    (hc : (s.drop i).head? = some c) (hne : c ≠ a) :
    litAt s i (a :: l) = false := by
  by_contra hcon
  have hcon2 : (a :: l).isPrefixOf (s.drop i) = true := by simpa [litAt] using hcon
  have hh := isPrefixOf_head hcon2
  rw [hc] at hh
  injection hh with hh
  exact hne hh

lemma litAt_kub_false_of_head {s : PyStr} {i : Nat} {c : Char}
    (hc : (s.drop i).head? = some c) (hne : c ≠ 'k') :
    litAt s i (pys "kubectl") = false := by
  rw [show pys "kubectl" = 'k' :: pys "ubectl" from rfl]
  exact litAt_false_of_head hc hne

lemma kubTry_fail_at_ws (s : PyStr) (j : Nat) (c : Char)
    (hc : (s.drop j).head? = some c) (hcw : isPyWs c = true) : kubTry s j = none := by
  unfold kubTry
  rw [if_neg (by simp [litAt_kub_false_of_head hc
    (show c ≠ 'k' from by intro he; rw [he] at hcw; exact absurd hcw (by decide))])]

/-- If the literal-`kubectl` test fails at the end of the whitespace run,
the whole `\s*`-backtracking tag search fails. -/
lemma tagTry_none (s : PyStr) (j0 : Nat)
    (hmax : kubTry s (j0 + wsRunAt s j0) = none) : tagTry s j0 = none := by
  unfold tagTry
  apply descFind_none
  intro v hv
  by_cases hveq : v = wsRunAt s j0
  · rw [hveq]; exact hmax
  · have hvlt : v < wsRunAt s j0 := lt_of_le_of_ne hv hveq
    obtain ⟨c, hc, hcw⟩ := head_drop_of_lt_runLen isPyWs (s.drop j0) v hvlt
    rw [List.drop_drop] at hc
    exact kubTry_fail_at_ws s (j0 + v) c hc hcw

/-- The position after the whitespace run holds the whitespace-stripped
suffix. -/
lemma drop_wsRun (s : PyStr) (j0 : Nat) :
    s.drop (j0 + wsRunAt s j0) = (s.drop j0).dropWhile isPyWs := by
  rw [← List.drop_drop]
  exact drop_runLen isPyWs (s.drop j0)

/-- `kubectl` is newline-free, so it is no prefix of `D ++ "\n..."` unless
it is a prefix of `D`. -/
lemma kub_prefix_concat (D G : PyStr)
    (hD : (pys "kubectl").isPrefixOf D = false)
    (h : (pys "kubectl").isPrefixOf (D ++ '\n' :: G) = true) : False := by
  by_cases hlen : 7 ≤ D.length
  · have htk := take_of_isPrefixOf h
    rw [show (pys "kubectl").length = 7 from rfl, List.take_append_eq_append_take,
      show 7 - D.length = 0 from by omega, List.take_zero, List.append_nil] at htk
    have h4 := List.take_prefix 7 D
    rw [htk] at h4
    rw [List.isPrefixOf_iff_prefix.mpr h4] at hD
    exact absurd hD (by simp)
  · push_neg at hlen
    have htk := take_of_isPrefixOf h
    rw [show (pys "kubectl").length = 7 from rfl, List.take_append_eq_append_take,
      List.take_of_length_le (by omega)] at htk
    have h5 : '\n' ∈ pys "kubectl" := by
      rw [← htk]
      refine List.mem_append_right _ ?_
      rw [show 7 - D.length = (7 - D.length - 1) + 1 from by omega,
        List.take_succ_cons]
      exact List.mem_cons_self _ _
    exact absurd h5 (by decide)

lemma runLen_nonNl_zero (X G : PyStr)
    (h : X.head? = none ∨ X.head? = some '\n') :
    runLen nonNl (X ++ '\n' :: G) = 0 := by
  cases X with
  | nil => rw [List.nil_append, runLen_cons, if_neg (by decide)]
  | cons x X' =>
    rcases h with h | h
    · simp at h
    · have hx : x = '\n' := by simpa using h
      rw [List.cons_append, runLen_cons, if_neg (by rw [hx]; decide)]

/-- The block content refuses the pattern: after optional leading
whitespace it does not begin with `kubectl` followed by at least one more
character on the same line. -/
def blockRefuses (B : PyStr) : Prop :=
  (pys "kubectl").isPrefixOf (B.dropWhile isPyWs) = false ∨
  (((B.dropWhile isPyWs).drop 7).head? = none ∨
   ((B.dropWhile isPyWs).drop 7).head? = some '\n')

/-- On refusing content the tag search at the content position fails. -/
lemma tagTry_render_fail (B : PyStr) (hfail : blockRefuses B) :
    tagTry (renderBashBlock B) 7 = none := by
  apply tagTry_none
  have hdmax : (renderBashBlock B).drop (7 + wsRunAt (renderBashBlock B) 7)
      = (B ++ pys "\n```").dropWhile isPyWs := by
    rw [drop_wsRun, render_drop7, List.dropWhile_cons_of_pos (by decide)]
  cases hDW : B.dropWhile isPyWs with
  | nil =>
    have hG : (B ++ pys "\n```").dropWhile isPyWs = pys "```" := by
      rw [List.dropWhile_append, hDW]
      decide
    unfold kubTry
    rw [if_neg (by
      have hfls : litAt (renderBashBlock B) (7 + wsRunAt (renderBashBlock B) 7)
          (pys "kubectl") = false := by
        unfold litAt
        rw [hdmax, hG]
        decide
      simp [hfls])]
  | cons d D' =>
    have hDS : (B ++ pys "\n```").dropWhile isPyWs = (d :: D') ++ pys "\n```" := by
      rw [List.dropWhile_append, hDW]
      simp
    have hrw : (renderBashBlock B).drop (7 + wsRunAt (renderBashBlock B) 7)
        = (d :: D') ++ '\n' :: pys "```" := by
      rw [hdmax, hDS]
      rfl
    rcases hfail with hnp | hmix
    · rw [hDW] at hnp
      unfold kubTry
      rw [if_neg (by
        intro hcon
        unfold litAt at hcon
        rw [hrw] at hcon
        exact kub_prefix_concat (d :: D') (pys "```") hnp hcon)]
    · rw [hDW] at hmix
      unfold kubTry
      by_cases hlit : litAt (renderBashBlock B) (7 + wsRunAt (renderBashBlock B) 7)
          (pys "kubectl") = true
      · have hconc : (pys "kubectl").isPrefixOf ((d :: D') ++ '\n' :: pys "```") = true := by
          unfold litAt at hlit
          rw [hrw] at hlit
          exact hlit
        by_cases hpD : (pys "kubectl").isPrefixOf (d :: D') = true
        · have h7 : 7 ≤ (d :: D').length := by
            have h2 := (List.isPrefixOf_iff_prefix.mp hpD).length_le
            rwa [show (pys "kubectl").length = 7 from rfl] at h2
          rw [if_pos hlit]
          unfold lineTry
          have hrun0 : nonNlRunAt (renderBashBlock B)
              (7 + wsRunAt (renderBashBlock B) 7 + 7) = 0 := by
            unfold nonNlRunAt
            rw [← List.drop_drop, hdmax, hDS, List.drop_append_eq_append_drop,
              show 7 - (d :: D').length = 0 from by omega, List.drop_zero,
              show (pys "\n```" : PyStr) = '\n' :: pys "```" from rfl]
            exact runLen_nonNl_zero _ _ hmix
          rw [hrun0]
          apply descFind_none
          intro v hv
          rw [Nat.le_zero.mp hv]
          rfl
        · exact (kub_prefix_concat (d :: D') (pys "```")
            (Bool.not_eq_true _ ▸ eq_false_of_ne_true hpD) hconc).elim
      · rw [if_neg (by simp [hlit])]

/-- On refusing content, nothing matches at position 0 either. -/
lemma attemptAt_render_zero_fail (B : PyStr) (hfail : blockRefuses B) :
    attemptAt (renderBashBlock B) 0 = none := by
  have hfence : litAt (renderBashBlock B) 0 (pys "```") = true := by
    unfold litAt
    rw [List.drop_zero]
    unfold renderBashBlock
    rw [show pys "```bash\n" = pys "```" ++ pys "bash\n" from rfl, List.append_assoc]
    exact isPrefixOf_self_append _ _
  have hbash : litAt (renderBashBlock B) (0 + 3) (pys "bash") = true := by
    unfold litAt
    rw [show (0 : Nat) + 3 = 3 from by norm_num, render_drop_le8 B 3 (by omega),
      show (pys "```bash\n").drop 3 = pys "bash" ++ pys "\n" from rfl,
      List.append_assoc]
    exact isPrefixOf_self_append _ _
  have hdrop3 : (renderBashBlock B).drop 3 = 'b' :: (pys "ash\n" ++ (B ++ pys "\n```")) := by
    rw [render_drop_le8 B 3 (by omega)]
    rfl
  have hsh : litAt (renderBashBlock B) (0 + 3) (pys "sh") = false := by
    rw [show (0 : Nat) + 3 = 3 from by norm_num,
      show pys "sh" = 's' :: pys "h" from rfl]
    exact litAt_false_of_head (by rw [hdrop3]; rfl) (by decide)
  have htag3 : tagTry (renderBashBlock B) (0 + 3) = none := by
    rw [show (0 : Nat) + 3 = 3 from by norm_num]
    apply tagTry_none
    have hws3 : wsRunAt (renderBashBlock B) 3 = 0 := by
      unfold wsRunAt
      rw [hdrop3, runLen_cons, if_neg (by decide)]
    rw [hws3, show (3 : Nat) + 0 = 3 from by norm_num]
    unfold kubTry
    rw [if_neg (by simp [litAt_kub_false_of_head
      (show ((renderBashBlock B).drop 3).head? = some 'b' from by rw [hdrop3]; rfl)
      (by decide)])]
  unfold attemptAt
  rw [if_pos hfence, if_pos hbash, show (0 : Nat) + 7 = 7 from by norm_num,
    tagTry_render_fail B hfail, if_neg (by simp [hsh])]
  exact htag3

/-- On refusing backtick-free content the block scan finds nothing. -/
lemma findAllBlocks_render_fail (B : PyStr) (hbt : btChar ∉ B)
    (hfail : blockRefuses B) : findAllBlocks (renderBashBlock B) = [] := by
  unfold findAllBlocks
  rw [render_length]
  show (if 0 ≤ (renderBashBlock B).length then
      match attemptAt (renderBashBlock B) 0 with
      | some (a, b, e) =>
        (a, b) :: goFind (renderBashBlock B) (B.length + 12) (max e (0 + 1))
      | none => goFind (renderBashBlock B) (B.length + 12) (0 + 1)
    else []) = []
  rw [if_pos (Nat.zero_le _), attemptAt_render_zero_fail B hfail]
  exact goFind_none_of_pos _ (fun j hj => attemptAt_render_pos B hbt j hj) _ _ (by omega)

/-- The inline pattern never matches inside a rendered block with
backtick-free content: every backtick is part of a fence. -/
lemma inlineTryAt_render_none (B : PyStr) (hbt : btChar ∉ B) (j : Nat) :
    inlineTryAt (renderBashBlock B) j = none := by
  unfold inlineTryAt
  by_cases hbtj : (renderBashBlock B)[j]? = some btChar
  · have hpos := render_bt_pos B hbt j hbtj
    have hjlt : j < (renderBashBlock B).length := (List.getElem?_eq_some.mp hbtj).1
    rw [render_length] at hjlt
    have hlitf : litAt (renderBashBlock B) (j + 1) (pys "kubectl") = false := by
      rcases hpos with hlo | hhi
      · interval_cases j
        · show litAt (renderBashBlock B) 1 (pys "kubectl") = false
          exact litAt_kub_false_of_head
            (by rw [List.head?_drop, render_getElem_lo B 1 (by omega)]; rfl) (by decide)
        · show litAt (renderBashBlock B) 2 (pys "kubectl") = false
          exact litAt_kub_false_of_head
            (by rw [List.head?_drop, render_getElem_lo B 2 (by omega)]; rfl) (by decide)
        · show litAt (renderBashBlock B) 3 (pys "kubectl") = false
          exact litAt_kub_false_of_head
            (by rw [List.head?_drop, render_getElem_lo B 3 (by omega)]; rfl) (by decide)
      · have h3 : j = B.length + 9 ∨ j = B.length + 10 ∨ j = B.length + 11 := by omega
        rcases h3 with h3 | h3 | h3 <;> subst h3
        · exact litAt_kub_false_of_head
            (show ((renderBashBlock B).drop (B.length + 9 + 1)).head? = some btChar from by
              rw [List.head?_drop, render_getElem_hi B _ (by omega),
                show B.length + 9 + 1 - 8 - B.length = 2 from by omega]
              rfl) (by decide)
        · exact litAt_kub_false_of_head
            (show ((renderBashBlock B).drop (B.length + 10 + 1)).head? = some btChar from by
              rw [List.head?_drop, render_getElem_hi B _ (by omega),
                show B.length + 10 + 1 - 8 - B.length = 3 from by omega]
              rfl) (by decide)
        · exact litAt_short _ _ _ (by decide)
            (by rw [render_length, show (pys "kubectl").length = 7 from rfl]; omega)
    rw [if_neg (by simp [hlitf])]
  · rw [if_neg (by simp [List.head?_drop, hbtj])]

lemma inlineGo_none_all (s : PyStr) (h : ∀ j, inlineTryAt s j = none) :
    ∀ fuel i, inlineGo s fuel i = [] := by
  intro fuel
  induction fuel with
  | zero => intro i; rfl
  | succ fuel ih =>
    intro i
    show (if i ≤ s.length then
        match inlineTryAt s i with
        | some (cap, e) => cap :: inlineGo s fuel (max e (i + 1))
        | none => inlineGo s fuel (i + 1)
      else []) = []
    by_cases hle : i ≤ s.length
    · rw [if_pos hle, h i]
      exact ih (i + 1)
    · rw [if_neg hle]

/-- Extraction on a rendered block with refusing backtick-free content is
empty: the block pass finds nothing and the inline fallback finds
nothing. -/
lemma extract_render_fail (B : PyStr) (hbt : btChar ∉ B)
    (hfail : blockRefuses B) : extractKubectlCommands (renderBashBlock B) = [] := by
  unfold extractKubectlCommands
  rw [findAllBlocks_render_fail B hbt hfail, if_pos (by rfl),
    inlineGo_none_all _ (inlineTryAt_render_none B hbt) _ _]
  rfl

/-! ### C9 support: joining well-formed commands and splitting them back. -/

lemma mem_joinNl (cmds : List PyStr) (x : Char) (hx : x ∈ joinNl cmds) :
    x = '\n' ∨ ∃ c ∈ cmds, x ∈ c := by
  induction cmds with
  | nil => simp [joinNl] at hx
  | cons c rest ih =>
    cases rest with
    | nil =>
      simp only [joinNl] at hx
      exact Or.inr ⟨c, List.mem_cons_self c [], hx⟩
    | cons r rs =>
      rw [show joinNl (c :: r :: rs) = c ++ '\n' :: joinNl (r :: rs) from rfl] at hx
      rcases List.mem_append.mp hx with h | h
      · exact Or.inr ⟨c, List.mem_cons_self c _, h⟩
      · rcases List.mem_cons.mp h with h | h
        · exact Or.inl h
        · rcases ih h with h | ⟨c', hc', hx'⟩
          · exact Or.inl h
          · exact Or.inr ⟨c', List.mem_cons_of_mem c hc', hx'⟩

lemma joinNl_ne_nil (c0 : PyStr) (rest : List PyStr) (hc0 : c0 ≠ []) :
    joinNl (c0 :: rest) ≠ [] := by
  cases rest with
  | nil => simpa [joinNl] using hc0
  | cons r rs =>
    rw [show joinNl (c0 :: r :: rs) = c0 ++ '\n' :: joinNl (r :: rs) from rfl]
    simp

lemma joinNl_prefix (c0 : PyStr) (rest : List PyStr) :
    c0 <+: joinNl (c0 :: rest) := by
  cases rest with
  | nil => exact List.prefix_refl c0
  | cons r rs =>
    rw [show joinNl (c0 :: r :: rs) = c0 ++ '\n' :: joinNl (r :: rs) from rfl]
    exact List.prefix_append c0 _

lemma joinNl_splitOn (cmds : List PyStr) (h : ∀ c ∈ cmds, '\n' ∉ c)
    (hne : cmds ≠ []) : (joinNl cmds).splitOn '\n' = cmds := by
  induction cmds with
  | nil => exact absurd rfl hne
  | cons c rest ih =>
    cases rest with
    | nil =>
      show (joinNl [c]).splitOnP (fun x => x == '\n') = [c]
      rw [show joinNl [c] = c from rfl]
      exact List.splitOnP_eq_single _ _ (fun x hx => by
        have := h c (List.mem_cons_self c []) 
        simp only [beq_iff_eq]
        intro he
        rw [he] at hx
        exact this hx)
    | cons r rs =>
      show (joinNl (c :: r :: rs)).splitOnP (fun x => x == '\n') = c :: r :: rs
      rw [show joinNl (c :: r :: rs) = c ++ '\n' :: joinNl (r :: rs) from rfl,
        List.splitOnP_first _ _ (fun x hx => by
          have := h c (List.mem_cons_self c _)
          simp only [beq_iff_eq]
          intro he
          rw [he] at hx
          exact this hx) '\n' (by simp) _]
      have ih2 := ih (fun c' hc' => h c' (List.mem_cons_of_mem c hc')) (by simp)
      rw [show (joinNl (r :: rs)).splitOn '\n'
          = (joinNl (r :: rs)).splitOnP (fun x => x == '\n') from rfl] at ih2
      rw [ih2]

lemma map_self_of_fix (f : PyStr → PyStr) (l : List PyStr)
    (h : ∀ x ∈ l, f x = x) : l.map f = l := by
  induction l with
  | nil => rfl
  | cons a l ih =>
    rw [List.map_cons, h a (List.mem_cons_self a l),
      ih fun x hx => h x (List.mem_cons_of_mem a hx)]

/-- A strip-fixed string neither starts nor ends with whitespace. -/
lemma strip_fix_parts (c : PyStr) (hc : pyStrip c = c) :
    c.dropWhile isPyWs = c ∧ c.reverse.dropWhile isPyWs = c.reverse := by
  unfold pyStrip at hc
  have hlen1 : ((c.dropWhile isPyWs).reverse.dropWhile isPyWs).length
      ≤ (c.dropWhile isPyWs).length := by
    have := congrArg List.length
      (List.takeWhile_append_dropWhile isPyWs (c.dropWhile isPyWs).reverse)
    rw [List.length_append] at this
    rw [← List.length_reverse (c.dropWhile isPyWs)]
    omega
  have hlen2 : (c.dropWhile isPyWs).length ≤ c.length := by
    have := congrArg List.length (List.takeWhile_append_dropWhile isPyWs c)
    rw [List.length_append] at this
    omega
  have hlenc := congrArg List.length hc
  rw [List.length_reverse] at hlenc
  have hA : c.dropWhile isPyWs = c :=
    (List.dropWhile_suffix isPyWs).eq_of_length (by omega)
  rw [hA] at hc
  refine ⟨hA, ?_⟩
  have := congrArg List.reverse hc
  rwa [List.reverse_reverse] at this

lemma dropWhile_self_head (p : Char → Bool) (l : PyStr) (h : l.dropWhile p = l) :
    l = [] ∨ ∃ a t, l = a :: t ∧ p a = false := by
  cases l with
  | nil => exact Or.inl rfl
  | cons a t =>
    by_cases ha : p a
    · rw [List.dropWhile_cons_of_pos ha] at h
      have := congrArg List.length h
      rw [List.length_cons] at this
      have h2 := (List.dropWhile_suffix p (l := t)).length_le
      omega
    · exact Or.inr ⟨a, t, rfl, by simpa using ha⟩

/-- A newline join of nonempty strip-fixed strings does not end in
whitespace. -/
lemma joinNl_reverse_fix (cmds : List PyStr)
    (h : ∀ c ∈ cmds, c ≠ [] ∧ c.reverse.dropWhile isPyWs = c.reverse) :
    (joinNl cmds).reverse.dropWhile isPyWs = (joinNl cmds).reverse := by
  induction cmds with
  | nil => rfl
  | cons c rest ih =>
    cases rest with
    | nil => exact (h c (List.mem_cons_self c [])).2
    | cons r rs =>
      rw [show joinNl (c :: r :: rs) = c ++ '\n' :: joinNl (r :: rs) from rfl,
        List.reverse_append, List.reverse_cons]
      have ih2 := ih fun c' hc' => h c' (List.mem_cons_of_mem c hc')
      have hne : joinNl (r :: rs) ≠ [] :=
        joinNl_ne_nil r rs (h r (List.mem_cons_of_mem c (List.mem_cons_self r rs))).1
      rcases dropWhile_self_head isPyWs _ ih2 with hnil | ⟨a, t, hat, hpa⟩
      · exact absurd (by rwa [← List.reverse_eq_nil_iff]) hne
      · rw [hat, List.append_assoc, List.cons_append,
          dropWhile_eq_self_of_head_false hpa]

lemma capSlice_render_single (B : PyStr) :
    capSlice (renderBashBlock B) 8 (B.length + 8) = B := by
  unfold capSlice
  rw [render_drop8, show B.length + 8 - 8 = B.length from by omega]
  exact List.take_left B _

lemma capSlice_render_multi (B : PyStr) :
    capSlice (renderBashBlock B) 8 (B.length + 9) = B ++ ['\n'] := by
  unfold capSlice
  rw [render_drop8, show B.length + 9 - 8 = B.length + 1 from by omega,
    List.take_append_eq_append_take, List.take_of_length_le (by omega),
    show B.length + 1 - B.length = 1 from by omega]
  rfl

lemma head_k_of_kub (l : PyStr) (h : (pys "kubectl").isPrefixOf l = true) :
    ∃ t, l = 'k' :: t := by
  have hl7 : l.take 7 = pys "kubectl" := by
    have h2 := take_of_isPrefixOf h
    rwa [show (pys "kubectl").length = 7 from rfl] at h2
  cases hx : l with
  | nil => rw [hx] at hl7; exact absurd hl7 (by decide)
  | cons b t =>
    rw [hx, List.take_cons (by omega : 0 < 7),
      show pys "kubectl" = 'k' :: pys "ubectl" from rfl] at hl7
    injection hl7 with h1 _
    exact ⟨t, by rw [h1]⟩

/-- A trailing newline does not change a Python `strip` of a string whose
head is not whitespace. -/
lemma pyStrip_append_nl (B : PyStr) (a : Char) (t : PyStr) (hB : B = a :: t)
    (ha : isPyWs a = false) : pyStrip (B ++ ['\n']) = pyStrip B := by
  subst hB
  unfold pyStrip
  rw [List.cons_append, dropWhile_eq_self_of_head_false ha,
    dropWhile_eq_self_of_head_false ha, List.reverse_cons, List.reverse_append,
    show (['\n'] : PyStr).reverse = ['\n'] from rfl, List.append_assoc,
    List.singleton_append, List.dropWhile_cons_of_pos (by decide),
    List.reverse_cons]

lemma blockCommands_append_nl (B : PyStr) (a : Char) (t : PyStr) (hB : B = a :: t)
    (ha : isPyWs a = false) : blockCommands (B ++ ['\n']) = blockCommands B := by
  unfold blockCommands
  rw [pyStrip_append_nl B a t hB ha]

lemma takeWhile_append_of_all (p : Char → Bool) (u v : PyStr)
    (h : ∀ c ∈ u, p c = true) : (u ++ v).takeWhile p = u ++ v.takeWhile p := by
  induction u with
  | nil => simp
  | cons a u ih =>
    rw [List.cons_append, List.takeWhile_cons_of_pos (h a (List.mem_cons_self a u)),
      ih fun c hc => h c (List.mem_cons_of_mem a hc), List.cons_append]

/-- `str.strip()` of a string beginning with `kubectl` still begins with
`kubectl`. -/
lemma strip_keeps_kub (l : PyStr) (h : (pys "kubectl").isPrefixOf l = true) :
    (pys "kubectl").isPrefixOf (pyStrip l) = true := by
  have hl7 : l.take 7 = pys "kubectl" := by
    have h2 := take_of_isPrefixOf h
    rwa [show (pys "kubectl").length = 7 from rfl] at h2
  have hlen7 : 7 ≤ l.length := by
    have h2 := (List.isPrefixOf_iff_prefix.mp h).length_le
    rwa [show (pys "kubectl").length = 7 from rfl] at h2
  obtain ⟨t0, hl⟩ := head_k_of_kub l h
  have hleft : l.dropWhile isPyWs = l := by
    rw [hl]; exact dropWhile_eq_self_of_head_false (by decide)
  unfold pyStrip
  rw [hleft]
  obtain ⟨u, hu⟩ : ∃ u, u ++ l.reverse.dropWhile isPyWs = l.reverse :=
    List.dropWhile_suffix isPyWs
  have hXpre : (l.reverse.dropWhile isPyWs).reverse ++ u.reverse = l := by
    have h2 := congrArg List.reverse hu
    rw [List.reverse_append, List.reverse_reverse] at h2
    exact h2
  have hrun : runLen isPyWs l.reverse ≤ l.length - 7 := by
    by_contra hcon
    push_neg at hcon
    obtain ⟨ch, hch, hws⟩ := head_drop_of_lt_runLen isPyWs l.reverse (l.length - 7) hcon
    rw [List.head?_drop,
      List.getElem?_reverse (show l.length - 7 < l.length from by omega),
      show l.length - 1 - (l.length - 7) = 6 from by omega] at hch
    have h6 : l[6]? = some 'l' := by
      rw [← List.getElem?_take_of_lt (show 6 < 7 from by omega), hl7]
      rfl
    rw [h6] at hch
    injection hch with hch
    rw [← hch] at hws
    exact absurd hws (by decide)
  have hXlen : 7 ≤ (l.reverse.dropWhile isPyWs).reverse.length := by
    have h2 := congrArg List.length (List.takeWhile_append_dropWhile isPyWs l.reverse)
    rw [List.length_append, List.length_reverse] at h2
    have h3 : (l.reverse.takeWhile isPyWs).length = runLen isPyWs l.reverse := rfl
    rw [List.length_reverse]
    omega
  have htake : (l.reverse.dropWhile isPyWs).reverse.take 7 = pys "kubectl" := by
    rw [← hl7]
    conv_rhs => rw [← hXpre]
    rw [List.take_append_eq_append_take,
      show 7 - (l.reverse.dropWhile isPyWs).reverse.length = 0 from by omega,
      List.take_zero, List.append_nil]
  have h4 := List.take_prefix 7 (l.reverse.dropWhile isPyWs).reverse
  rw [htake] at h4
  exact List.isPrefixOf_iff_prefix.mpr h4

lemma takeWhile_keeps_kub (l : PyStr) (h : (pys "kubectl").isPrefixOf l = true) :
    (pys "kubectl").isPrefixOf (l.takeWhile nonNl) = true := by
  have hl7 : l.take 7 = pys "kubectl" := by
    have h2 := take_of_isPrefixOf h
    rwa [show (pys "kubectl").length = 7 from rfl] at h2
  have hsplit : l = pys "kubectl" ++ l.drop 7 := by
    conv_lhs => rw [← List.take_append_drop 7 l]
    rw [hl7]
  conv_lhs => rw [hsplit]
  rw [takeWhile_append_of_all nonNl _ _ (by decide)]
  exact isPrefixOf_self_append _ _

lemma not_hash_of_kub (x : PyStr) (h : (pys "kubectl").isPrefixOf x = true) :
    (pys "#").isPrefixOf x = false := by
  by_contra hcon
  have hcon2 : (pys "#").isPrefixOf x = true := by simpa using hcon
  have h1 : x.head? = some 'k' :=
    isPrefixOf_head (show ('k' :: pys "ubectl").isPrefixOf x = true from by
      rw [show ('k' :: pys "ubectl" : PyStr) = pys "kubectl" from rfl]; exact h)
  have h2 : x.head? = some '#' :=
    isPrefixOf_head (show ('#' :: ([] : PyStr)).isPrefixOf x = true from by
      rw [show ('#' :: ([] : PyStr)) = pys "#" from rfl]; exact hcon2)
  rw [h1] at h2
  injection h2 with h2
  exact absurd h2 (by decide)

/-- A block whose content begins with `kubectl` contributes at least one
command. -/
lemma blockCommands_ne_nil (B : PyStr) (hk : (pys "kubectl").isPrefixOf B = true) :
    blockCommands B ≠ [] := by
  unfold blockCommands
  have hkS : (pys "kubectl").isPrefixOf (pyStrip B) = true := strip_keeps_kub B hk
  have hsplitdef : (pyStrip B).splitOn '\n'
      = (pyStrip B).splitOnP (fun c => c == '\n') := rfl
  cases hdw : (pyStrip B).dropWhile nonNl with
  | nil =>
    have hall := List.dropWhile_eq_nil_iff.mp hdw
    rw [hsplitdef, List.splitOnP_eq_single _ _ (fun x hx => by
      have hx2 := hall x hx
      unfold nonNl at hx2
      simp only [decide_eq_true_eq] at hx2
      simp [hx2]), List.map_cons, List.map_nil]
    have c1 := strip_keeps_kub _ hkS
    have c2 := not_hash_of_kub _ c1
    rw [List.filter_cons_of_pos (by rw [c1, c2]; rfl)]
    exact List.cons_ne_nil _ _
  | cons d t =>
    have hd : d = '\n' := by
      have h2 := dropWhile_head_false nonNl (pyStrip B) d t hdw
      unfold nonNl at h2
      simpa using h2
    have hsp : pyStrip B = (pyStrip B).takeWhile nonNl ++ '\n' :: t := by
      conv_lhs => rw [← List.takeWhile_append_dropWhile nonNl (pyStrip B)]
      rw [hdw, hd]
    rw [hsplitdef, hsp, List.splitOnP_first _ _ (fun x hx => by
      have hx2 := List.mem_takeWhile_imp hx
      unfold nonNl at hx2
      simp only [decide_eq_true_eq] at hx2
      simp [hx2]) '\n' (by simp) t, List.map_cons]
    have c1 := strip_keeps_kub _ (takeWhile_keeps_kub _ hkS)
    have c2 := not_hash_of_kub _ c1
    rw [List.filter_cons_of_pos (by rw [c1, c2]; rfl)]
    exact List.cons_ne_nil _ _

/-- Extraction on a rendered block with a leading `kubectl` line yields the
block's kubectl lines. -/
lemma extract_render_eq (B : PyStr) (hbt : btChar ∉ B)
    (hk : (pys "kubectl").isPrefixOf B = true)
    (c : Char) (hc : (B.drop 7).head? = some c) (hcn : c ≠ '\n') :
    extractKubectlCommands (renderBashBlock B) = blockCommands B := by
  have hne := blockCommands_ne_nil B hk
  obtain ⟨t0, hB0⟩ := head_k_of_kub B hk
  unfold extractKubectlCommands
  rw [findAllBlocks_render B hbt hk c hc hcn]
  by_cases hdw : B.dropWhile nonNl = []
  · rw [if_pos hdw]
    simp only [List.flatMap_cons, List.flatMap_nil, List.append_nil]
    rw [capSlice_render_single]
    rw [if_neg (by simp [List.isEmpty_iff, hne])]
  · rw [if_neg hdw]
    simp only [List.flatMap_cons, List.flatMap_nil, List.append_nil]
    rw [capSlice_render_multi, blockCommands_append_nl B 'k' t0 hB0 (by decide)]
    rw [if_neg (by simp [List.isEmpty_iff, hne])]

/-- Modelled from the spec: what step (1) of the claimed algorithm yields
on a markdown text consisting of a single fenced code block with the given
content: every stripped line of the block beginning with the literal token
`kubectl` that is not a comment line, in order. -/
def claimStep1SingleBlock (body : PyStr) : List PyStr :=
  ((body.splitOn '\n').map pyStrip).filter
    (fun l => (pys "kubectl").isPrefixOf l && !((pys "#").isPrefixOf l))

/-- C7: the claim says the extractor collects, from every fenced code
block, each non-comment line beginning with `kubectl`; but on the text
consisting of the single bash block with content
`"echo hi\nkubectl get pods"` the claimed step (1) yields
`["kubectl get pods"]` while the code returns the empty list, because the
block regex requires the content to begin with `kubectl` (after optional
whitespace) and otherwise matches nothing. -/
theorem c7_counterexample :
    claimStep1SingleBlock (pys "echo hi\nkubectl get pods")
      = [pys "kubectl get pods"] ∧
    extractKubectlCommands (pys "```bash\necho hi\nkubectl get pods\n```") = [] := by
  constructor
  · decide
  · decide

/-- The strings whose rendering as a single fenced `bash` block the
extractor handles: C9's well-formed one-line commands. -/
def wfKubCmd (c : PyStr) : Prop :=
  (pys "kubectl ").isPrefixOf c = true ∧ '\n' ∉ c ∧ btChar ∉ c ∧ pyStrip c = c

/-- C7 (amended): for a markdown text that is a single fenced `bash` code
block with backtick-free content: if the content begins with `kubectl`
followed by at least one more same-line character, the extractor returns
every stripped line of the stripped content that begins with `kubectl` and
is not a comment, in order; if the content (even after leading
whitespace) does not begin with such a `kubectl` line, the extractor
returns the empty list — the first line of the block decides, so a block
whose content starts with any other command contributes nothing, and the
empty result is a value, not an error. -/
theorem c7_block_extraction_amended (B : PyStr) (hbt : btChar ∉ B) :
    ((pys "kubectl").isPrefixOf B = true →
      (∃ c, (B.drop 7).head? = some c ∧ c ≠ '\n') →
      extractKubectlCommands (renderBashBlock B) =
        (((pyStrip B).splitOn '\n').map pyStrip).filter
          (fun l => (pys "kubectl").isPrefixOf l && !((pys "#").isPrefixOf l))) ∧
    (blockRefuses B → extractKubectlCommands (renderBashBlock B) = []) := by
  constructor
  · intro hk hcc
    obtain ⟨c, hc, hcn⟩ := hcc
    rw [extract_render_eq B hbt hk c hc hcn]
    rfl
  · intro hfail
    exact extract_render_fail B hbt hfail

/-- Witness for C7 (amended): both branches at concrete contents. -/
theorem c7_block_extraction_amended_witness :
    btChar ∉ pys "kubectl get pods" ∧
    extractKubectlCommands (renderBashBlock (pys "kubectl get pods"))
      = [pys "kubectl get pods"] ∧
    extractKubectlCommands (renderBashBlock (pys "echo hi")) = [] := by
  refine ⟨by decide, ?_, ?_⟩
  · have h := (c7_block_extraction_amended (pys "kubectl get pods") (by decide)).1
      (by decide) ⟨' ', by decide, by decide⟩
    rw [h]
    decide
  · exact (c7_block_extraction_amended (pys "echo hi") (by decide)).2
      (Or.inl (by decide))

/-- C9: rendering a list of well-formed single-line `kubectl` commands as
one fenced `bash` block and extracting returns exactly the original list in
order (`extract ∘ extract_as_markdown` is the identity on such lists; the
empty list round-trips to the empty list). -/
theorem c9_markdown_roundtrip (cmds : List PyStr)
    (hwf : ∀ c ∈ cmds, wfKubCmd c) :
    extractKubectlCommands (renderBashBlock (joinNl cmds)) = cmds := by
  cases cmds with
  | nil => exact extract_render_fail [] (by simp) (Or.inl (by decide))
  | cons c0 rest =>
    obtain ⟨hp0, hnl0, hbt0, hst0⟩ := hwf c0 (List.mem_cons_self c0 rest)
    have hpre : c0 <+: joinNl (c0 :: rest) := joinNl_prefix c0 rest
    have hk78 : (pys "kubectl") <+: pys "kubectl " :=
      List.isPrefixOf_iff_prefix.mp (by decide)
    have hk : (pys "kubectl").isPrefixOf (joinNl (c0 :: rest)) = true :=
      List.isPrefixOf_iff_prefix.mpr
        ((hk78.trans (List.isPrefixOf_iff_prefix.mp hp0)).trans hpre)
    have hp8 : (pys "kubectl ").isPrefixOf (joinNl (c0 :: rest)) = true :=
      List.isPrefixOf_iff_prefix.mpr
        ((List.isPrefixOf_iff_prefix.mp hp0).trans hpre)
    have ht8 := take_of_isPrefixOf hp8
    rw [show (pys "kubectl ").length = 8 from rfl] at ht8
    have hc : ((joinNl (c0 :: rest)).drop 7).head? = some ' ' := by
      rw [List.head?_drop, ← List.getElem?_take_of_lt (show 7 < 8 from by omega), ht8]
      rfl
    have hbt : btChar ∉ joinNl (c0 :: rest) := by
      intro hx
      rcases mem_joinNl _ _ hx with h | ⟨c, hcm, hxc⟩
      · exact absurd h (by decide)
      · exact (hwf c hcm).2.2.1 hxc
    rw [extract_render_eq _ hbt hk ' ' hc (by decide)]
    unfold blockCommands
    have hstripB : pyStrip (joinNl (c0 :: rest)) = joinNl (c0 :: rest) := by
      obtain ⟨t0, hB0⟩ := head_k_of_kub _ hk
      unfold pyStrip
      rw [hB0, dropWhile_eq_self_of_head_false (by decide), ← hB0,
        joinNl_reverse_fix _ (fun c hcm => ⟨by
            intro he
            have h2 := (hwf c hcm).1
            rw [he] at h2
            exact absurd h2 (by decide),
          (strip_fix_parts c (hwf c hcm).2.2.2).2⟩),
        List.reverse_reverse]
    rw [hstripB, joinNl_splitOn _ (fun c hcm => (hwf c hcm).2.1) (by simp),
      map_self_of_fix _ _ (fun c hcm => (hwf c hcm).2.2.2)]
    refine List.filter_eq_self.mpr ?_
    intro a ha
    have hka : (pys "kubectl").isPrefixOf a = true :=
      List.isPrefixOf_iff_prefix.mpr
        (hk78.trans (List.isPrefixOf_iff_prefix.mp (hwf a ha).1))
    rw [hka, not_hash_of_kub a hka]
    rfl

/-- Witness for C9: a concrete two-command list round-trips. -/
theorem c9_markdown_roundtrip_witness :
    (∀ c ∈ [pys "kubectl get pods", pys "kubectl delete pod stuck -n app"],
      wfKubCmd c) ∧
    extractKubectlCommands (renderBashBlock
        (joinNl [pys "kubectl get pods", pys "kubectl delete pod stuck -n app"]))
      = [pys "kubectl get pods", pys "kubectl delete pod stuck -n app"] := by
  have hwf : ∀ c ∈ [pys "kubectl get pods", pys "kubectl delete pod stuck -n app"],
      wfKubCmd c := by
    intro c hc
    rcases List.mem_cons.mp hc with h | h
    · subst h; exact ⟨by decide, by decide, by decide, by decide⟩
    · rcases List.mem_cons.mp h with h2 | h2
      · subst h2; exact ⟨by decide, by decide, by decide, by decide⟩
      · simp at h2
  exact ⟨hwf, c9_markdown_roundtrip _ hwf⟩
